import Mathlib

/-!
Verification development for the QuantumMind statevector simulator
(`src/main.py`).

The simulator is embedded shallowly.  Every amplitude the program can ever
produce lies in the cyclotomic field Q(zeta), zeta = exp(i*pi/4): the gate
entries are 0, 1, -1, i = zeta^2, -i, exp(i*pi/4) = zeta and
1/sqrt 2 = (zeta - zeta^3)/2.  We therefore represent amplitudes exactly by
their rational coordinates in the power basis 1, zeta, zeta^2, zeta^3 with
zeta^4 = -1.  This makes every state-vector computation of the source
executable and decidable, while the real value of a real element
z = a + b*sqrt 2 is available for order-theoretic statements as
(z.a : R) + z.b * sqrt 2.

Floating point is idealized as exact real arithmetic, the standard shallow
embedding of numpy complex arrays.  Python exceptions are modelled by
`Except PyErr`, and the uniform random draws consumed by `np.random` are
explicit arguments of the measurement operations.
-/

/-- Element of Q(zeta), zeta = exp(i*pi/4), written
a + b*zeta + c*zeta^2 + d*zeta^3 with rational coordinates and
zeta^4 = -1.  All amplitudes of the simulator live in this ring. -/
@[ext]
structure Zeta8 where
  a : ℚ
  b : ℚ
  c : ℚ
  d : ℚ
deriving DecidableEq, Repr

namespace Zeta8

def add (x y : Zeta8) : Zeta8 := ⟨x.a + y.a, x.b + y.b, x.c + y.c, x.d + y.d⟩

def neg (x : Zeta8) : Zeta8 := ⟨-x.a, -x.b, -x.c, -x.d⟩

/-- Multiplication in the power basis, using zeta^4 = -1. -/
def mul (x y : Zeta8) : Zeta8 :=
  ⟨x.a * y.a - x.b * y.d - x.c * y.c - x.d * y.b,
   x.a * y.b + x.b * y.a - x.c * y.d - x.d * y.c,
   x.a * y.c + x.b * y.b + x.c * y.a - x.d * y.d,
   x.a * y.d + x.b * y.c + x.c * y.b + x.d * y.a⟩

instance : Zero Zeta8 := ⟨⟨0, 0, 0, 0⟩⟩

instance : One Zeta8 := ⟨⟨1, 0, 0, 0⟩⟩

instance : Add Zeta8 := ⟨add⟩

instance : Neg Zeta8 := ⟨neg⟩

instance : Mul Zeta8 := ⟨mul⟩

@[simp] lemma add_a (x y : Zeta8) : (x + y).a = x.a + y.a := rfl

@[simp] lemma add_b (x y : Zeta8) : (x + y).b = x.b + y.b := rfl

@[simp] lemma add_c (x y : Zeta8) : (x + y).c = x.c + y.c := rfl

@[simp] lemma add_d (x y : Zeta8) : (x + y).d = x.d + y.d := rfl

@[simp] lemma neg_a (x : Zeta8) : (-x).a = -x.a := rfl

@[simp] lemma neg_b (x : Zeta8) : (-x).b = -x.b := rfl

@[simp] lemma neg_c (x : Zeta8) : (-x).c = -x.c := rfl

@[simp] lemma neg_d (x : Zeta8) : (-x).d = -x.d := rfl

@[simp] lemma mul_a (x y : Zeta8) :
    (x * y).a = x.a * y.a - x.b * y.d - x.c * y.c - x.d * y.b := rfl

@[simp] lemma mul_b (x y : Zeta8) :
    (x * y).b = x.a * y.b + x.b * y.a - x.c * y.d - x.d * y.c := rfl

@[simp] lemma mul_c (x y : Zeta8) :
    (x * y).c = x.a * y.c + x.b * y.b + x.c * y.a - x.d * y.d := rfl

@[simp] lemma mul_d (x y : Zeta8) :
    (x * y).d = x.a * y.d + x.b * y.c + x.c * y.b + x.d * y.a := rfl

@[simp] lemma zero_a : (0 : Zeta8).a = 0 := rfl

@[simp] lemma zero_b : (0 : Zeta8).b = 0 := rfl

@[simp] lemma zero_c : (0 : Zeta8).c = 0 := rfl

@[simp] lemma zero_d : (0 : Zeta8).d = 0 := rfl

@[simp] lemma one_a : (1 : Zeta8).a = 1 := rfl

@[simp] lemma one_b : (1 : Zeta8).b = 0 := rfl

@[simp] lemma one_c : (1 : Zeta8).c = 0 := rfl

@[simp] lemma one_d : (1 : Zeta8).d = 0 := rfl

instance : CommRing Zeta8 where
  nsmul := nsmulRec
  zsmul := zsmulRec
  add_assoc := by intros; ext <;> simp <;> ring
  zero_add := by intros; ext <;> simp
  add_zero := by intros; ext <;> simp
  add_comm := by intros; ext <;> simp <;> ring
  mul_assoc := by intros; ext <;> simp <;> ring
  one_mul := by intros; ext <;> simp
  mul_one := by intros; ext <;> simp
  left_distrib := by intros; ext <;> simp <;> ring
  right_distrib := by intros; ext <;> simp <;> ring
  zero_mul := by intros; ext <;> simp
  mul_zero := by intros; ext <;> simp
  mul_comm := by intros; ext <;> simp <;> ring
  neg_add_cancel := by intros; ext <;> simp

@[simp] lemma sub_a (x y : Zeta8) : (x - y).a = x.a - y.a := by
  show (x + -y).a = _; simp; ring

@[simp] lemma sub_b (x y : Zeta8) : (x - y).b = x.b - y.b := by
  show (x + -y).b = _; simp; ring

@[simp] lemma sub_c (x y : Zeta8) : (x - y).c = x.c - y.c := by
  show (x + -y).c = _; simp; ring

@[simp] lemma sub_d (x y : Zeta8) : (x - y).d = x.d - y.d := by
  show (x + -y).d = _; simp; ring

/-- Complex conjugation: zeta maps to zeta^{-1} = -zeta^3. -/
def conj (x : Zeta8) : Zeta8 := ⟨x.a, -x.d, -x.c, -x.b⟩

@[simp] lemma conj_a (x : Zeta8) : (conj x).a = x.a := rfl

@[simp] lemma conj_b (x : Zeta8) : (conj x).b = -x.d := rfl

@[simp] lemma conj_c (x : Zeta8) : (conj x).c = -x.c := rfl

@[simp] lemma conj_d (x : Zeta8) : (conj x).d = -x.b := rfl

instance : StarRing Zeta8 where
  star := conj
  star_involutive := by intro x; ext <;> simp [conj]
  star_mul := by intros; ext <;> simp [conj] <;> ring
  star_add := by intros; ext <;> simp [conj] <;> ring

@[simp] lemma star_a (x : Zeta8) : (star x).a = x.a := rfl

@[simp] lemma star_b (x : Zeta8) : (star x).b = -x.d := rfl

@[simp] lemma star_c (x : Zeta8) : (star x).c = -x.c := rfl

@[simp] lemma star_d (x : Zeta8) : (star x).d = -x.b := rfl

/-- An element of the real subfield: z = z.a + z.b * sqrt 2,
with sqrt 2 = zeta - zeta^3. -/
def IsReal (z : Zeta8) : Prop := z.c = 0 ∧ z.d = -z.b

instance (z : Zeta8) : Decidable z.IsReal := by
  unfold IsReal; infer_instance

/-- The real value of x is at most the real value of y.  Meaningful for
elements of the real subfield, whose value is x.a + x.b * sqrt 2. -/
def rle (x y : Zeta8) : Prop :=
  (x.a : ℝ) + x.b * Real.sqrt 2 ≤ (y.a : ℝ) + y.b * Real.sqrt 2

/-- Strict version of `Zeta8.rle`. -/
def rlt (x y : Zeta8) : Prop :=
  (x.a : ℝ) + x.b * Real.sqrt 2 < (y.a : ℝ) + y.b * Real.sqrt 2

/-- Executable comparison deciding 0 <= z.a + z.b * sqrt 2, used to model
the float comparisons done by the interpreted code (searchsorted inside
`np.random.choice`, and `np.random.random() < prob_0`). -/
def nnegB (z : Zeta8) : Bool :=
  if 0 ≤ z.a then
    if 0 ≤ z.b then true
    else decide (2 * (z.b * z.b) ≤ z.a * z.a)
  else
    if 0 ≤ z.b then decide (z.a * z.a ≤ 2 * (z.b * z.b))
    else false

/-- Executable strict comparison of real values: x < y. -/
def zltB (x y : Zeta8) : Bool := ! nnegB (x - y)

lemma nnegB_iff (z : Zeta8) :
    nnegB z = true ↔ (0 : ℝ) ≤ (z.a : ℝ) + z.b * Real.sqrt 2 := by
  have hs : Real.sqrt 2 ^ 2 = 2 := Real.sq_sqrt (by norm_num)
  have hspos : 0 < Real.sqrt 2 := Real.sqrt_pos.mpr (by norm_num)
  unfold nnegB
  split_ifs with h1 h2 h2
  · have ha : (0 : ℝ) ≤ (z.a : ℝ) := by exact_mod_cast h1
    have hb : (0 : ℝ) ≤ (z.b : ℝ) := by exact_mod_cast h2
    simp only [true_iff]
    nlinarith [mul_nonneg hb hspos.le]
  · have ha : (0 : ℝ) ≤ (z.a : ℝ) := by exact_mod_cast h1
    have hb : (z.b : ℝ) < 0 := by
      have := lt_of_not_le h2; exact_mod_cast this
    rw [decide_eq_true_eq]
    constructor
    · intro hq
      have hq2 : 2 * ((z.b : ℝ) * z.b) ≤ (z.a : ℝ) * z.a := by exact_mod_cast hq
      have h5 : 0 < (z.a : ℝ) - z.b * Real.sqrt 2 := by
        nlinarith [mul_pos (neg_pos.mpr hb) hspos]
      by_contra hcon
      push_neg at hcon
      nlinarith [mul_pos h5 (by linarith : (0 : ℝ) < -((z.a : ℝ) + z.b * Real.sqrt 2))]
    · intro hr
      have h5 : 0 ≤ (z.a : ℝ) - z.b * Real.sqrt 2 := by
        nlinarith [mul_pos (neg_pos.mpr hb) hspos]
      have hq2 : 2 * ((z.b : ℝ) * z.b) ≤ (z.a : ℝ) * z.a := by
        nlinarith [mul_nonneg hr h5]
      exact_mod_cast hq2
  · have ha : (z.a : ℝ) < 0 := by
      have := lt_of_not_le h1; exact_mod_cast this
    have hb : (0 : ℝ) ≤ (z.b : ℝ) := by exact_mod_cast h2
    rw [decide_eq_true_eq]
    constructor
    · intro hq
      have hq2 : (z.a : ℝ) * z.a ≤ 2 * ((z.b : ℝ) * z.b) := by exact_mod_cast hq
      nlinarith [mul_nonneg hb hspos.le, sq_nonneg ((z.a : ℝ) + z.b * Real.sqrt 2)]
    · intro hr
      have h5 : 0 ≤ (z.b : ℝ) * Real.sqrt 2 := mul_nonneg hb hspos.le
      have hq2 : (z.a : ℝ) * z.a ≤ 2 * ((z.b : ℝ) * z.b) := by
        nlinarith [mul_nonneg hr (by linarith : (0 : ℝ) ≤ -(z.a : ℝ) + z.b * Real.sqrt 2)]
      exact_mod_cast hq2
  · have ha : (z.a : ℝ) < 0 := by
      have := lt_of_not_le h1; exact_mod_cast this
    have hb : (z.b : ℝ) < 0 := by
      have := lt_of_not_le h2; exact_mod_cast this
    simp only [false_iff, not_le]
    nlinarith [mul_pos (neg_pos.mpr hb) hspos]

lemma zltB_iff (x y : Zeta8) : zltB x y = true ↔ x.rlt y := by
  unfold zltB rlt
  rw [Bool.not_eq_true', Bool.eq_false_iff]
  rw [ne_eq, nnegB_iff]
  simp only [sub_a, sub_b]
  push_cast
  constructor
  · intro h
    by_contra h2
    push_neg at h2
    exact h (by linarith)
  · intro h h2
    linarith

end Zeta8

/-!
Section: Sized matrices and vectors

numpy arrays are modelled as a carried length together with a total entry
function; entries at indices at or beyond the carried length are junk that no
statement depends on: every claim quantifies only over in-range indices.
-/

/-- A square complex matrix of size `dim` (model of a 2-d numpy array). -/
structure SMat where
  dim : ℕ
  entry : ℕ → ℕ → Zeta8

/-- A complex vector of length `dim` (model of a 1-d numpy array). -/
structure SVec where
  dim : ℕ
  entry : ℕ → Zeta8

/-- Model of `np.eye(n)` with complex dtype. -/
def np_eye (n : ℕ) : SMat := ⟨n, fun i j => if i = j then 1 else 0⟩

/-- Model of `np.kron` for square matrices: the entry of `np.kron(A, B)` at
row i and column j is `A[i // B.dim][j // B.dim] * B[i % B.dim][j % B.dim]`,
the first factor occupying the high-order part of the index. -/
def np_kron (A B : SMat) : SMat :=
  ⟨A.dim * B.dim, fun i j =>
    A.entry (i / B.dim) (j / B.dim) * B.entry (i % B.dim) (j % B.dim)⟩

/-- Model of `np.dot(matrix, vector)`.  The shape compatibility check that
`np.dot` performs is made explicit by the caller `apply_gate`. -/
def np_dot (m : SMat) (v : SVec) : SVec :=
  ⟨m.dim, fun i => ∑ j in Finset.range v.dim, m.entry i j * v.entry j⟩

/-- Squared l2 norm of a state vector: the sum of |amplitude|^2, as an exact
element of the real subfield of Q(zeta). -/
def normSq (v : SVec) : Zeta8 :=
  ∑ i in Finset.range v.dim, star (v.entry i) * v.entry i

/-- A 2 x 2 matrix literal, row major. -/
def mat2 (x00 x01 x10 x11 : Zeta8) : SMat :=
  ⟨2, fun i j =>
    if i = 0 then (if j = 0 then x00 else if j = 1 then x01 else 0)
    else if i = 1 then (if j = 0 then x10 else if j = 1 then x11 else 0)
    else 0⟩

/-- A 4 x 4 matrix literal, row major. -/
def mat4 (x00 x01 x02 x03 x10 x11 x12 x13 x20 x21 x22 x23 x30 x31 x32 x33 : Zeta8) : SMat :=
  ⟨4, fun i j =>
    if i = 0 then
      (if j = 0 then x00 else if j = 1 then x01 else if j = 2 then x02 else if j = 3 then x03 else 0)
    else if i = 1 then
      (if j = 0 then x10 else if j = 1 then x11 else if j = 2 then x12 else if j = 3 then x13 else 0)
    else if i = 2 then
      (if j = 0 then x20 else if j = 1 then x21 else if j = 2 then x22 else if j = 3 then x23 else 0)
    else if i = 3 then
      (if j = 0 then x30 else if j = 1 then x31 else if j = 2 then x32 else if j = 3 then x33 else 0)
    else 0⟩

/-- The imaginary unit i = zeta^2. -/
def iZ8 : Zeta8 := ⟨0, 0, 1, 0⟩

/-- 1/sqrt 2 = (zeta - zeta^3)/2, the Hadamard amplitude. -/
def invSqrt2 : Zeta8 := ⟨0, 1/2, 0, -1/2⟩

/-- zeta = exp(i*pi/4), the T-gate phase. -/
def zetaPhase : Zeta8 := ⟨0, 1, 0, 0⟩

/-!
Section: The simulator
-/

/-- Python exceptions surfaced by the interpreted code or by numpy. -/
inductive PyErr where
  | valueError (msg : String)
  | typeError (msg : String)
  | nameError (name : String)
deriving DecidableEq, Repr

/-- Source `QuantumGate`: a named unitary matrix. -/
structure QuantumGate where
  name : String
  matrix : SMat

/-- Source `QuantumSimulator` instance attributes: `num_qubits`,
`num_states = 2 ** num_qubits`, and the complex state array. -/
structure QuantumSimulator where
  num_qubits : ℕ
  num_states : ℕ
  state : SVec

/-- Model of `QuantumSimulator._initialize_gates`: the gate dictionary, as an
association list over the fixed catalog I, X, Y, Z, H, S, T, CNOT, with the
exact matrices of the source (H scaled by 1/sqrt 2, T phase exp(i*pi/4)). -/
def init_gates : List (String × QuantumGate) :=
  [("I", ⟨"I", mat2 1 0 0 1⟩),
   ("X", ⟨"X", mat2 0 1 1 0⟩),
   ("Y", ⟨"Y", mat2 0 (-iZ8) iZ8 0⟩),
   ("Z", ⟨"Z", mat2 1 0 0 (-1)⟩),
   ("H", ⟨"H", mat2 invSqrt2 invSqrt2 invSqrt2 (-invSqrt2)⟩),
   ("S", ⟨"S", mat2 1 0 0 iZ8⟩),
   ("T", ⟨"T", mat2 1 0 0 zetaPhase⟩),
   ("CNOT", ⟨"CNOT", mat4 1 0 0 0 0 1 0 0 0 0 0 1 0 0 1 0⟩)]

/-- The gate names of the fixed catalog. -/
def gate_catalog : List String := init_gates.map Prod.fst

/-- `QuantumSimulator.__init__` for a nonnegative qubit count:
`num_states = 2 ** num_qubits`, state = all-zero basis vector (amplitude 1 at
index 0). -/
def initSim (n : ℕ) : QuantumSimulator :=
  ⟨n, 2 ^ n, ⟨2 ^ n, fun i => if i = 0 then 1 else 0⟩⟩

/-- Model of `QuantumSimulator(num_qubits)` on an arbitrary Python int.  The
source validates nothing: for num_qubits >= 0 construction succeeds (also for
num_qubits = 0, giving the 1-dimensional state [1]); for negative num_qubits
the Python expression `2 ** num_qubits` is a float and `np.zeros` raises
TypeError.  No `InvalidQubitCountError` exists anywhere in the source. -/
def mkQuantumSimulator (num_qubits : ℤ) : Except PyErr QuantumSimulator :=
  if num_qubits < 0 then
    .error (.typeError ("float object cannot be interpreted as an integer"))
  else
    .ok (initSim num_qubits.toNat)

/-- Model of `QuantumSimulator._build_single_qubit_gate`:
result = 1; for i in range(num_qubits):
  result = np.kron(result, gate if i == target else np.eye(2)).
The 1 x 1 matrix [[1]] models the initial Python scalar 1.  The target index
is a Python int and is never validated; if it lies outside range(num_qubits)
the chain consists of identity factors only. -/
def build_single_qubit_gate (gate_matrix : SMat) (target : ℤ) (num_qubits : ℕ) : SMat :=
  (List.range num_qubits).foldl
    (fun (result : SMat) (i : ℕ) =>
      np_kron result (if (i : ℤ) = target then gate_matrix else np_eye 2))
    ⟨1, fun _ _ => 1⟩

/-- Model of `QuantumSimulator._build_controlled_gate`: the source is a stub
that returns `np.eye(self.num_states)`, ignoring the gate matrix and both
qubit indices entirely. -/
def build_controlled_gate (gate_matrix : SMat) (control target : ℤ) (num_states : ℕ) : SMat :=
  np_eye num_states

/-- Model of `QuantumSimulator.apply_gate`.  Raises
`ValueError("Unknown gate: ...")` before touching the state when the name is
outside the catalog; otherwise builds the full operator and applies it with
`np.dot`.  The shape check of `np.dot` (ValueError when the operator size
differs from the state length, as happens when the 4 x 4 CNOT matrix is
inserted into the single-qubit tensor chain) is made explicit; in that case
the assignment to `self.state` is never executed. -/
def apply_gate (sim : QuantumSimulator) (gate_name : String) (target_qubit : ℤ)
    (control_qubit : Option ℤ) : Except PyErr QuantumSimulator :=
  match init_gates.find? (fun p => p.1 == gate_name) with
  | none => .error (.valueError ("Unknown gate: " ++ gate_name))
  | some p =>
    let full_matrix : SMat :=
      match control_qubit with
      | some control => build_controlled_gate p.2.matrix control target_qubit sim.num_states
      | none => build_single_qubit_gate p.2.matrix target_qubit sim.num_qubits
    if full_matrix.dim = sim.state.dim then
      .ok { sim with state := np_dot full_matrix sim.state }
    else
      .error (.valueError ("shapes not aligned"))

/-- The probability array `np.abs(self.state) ** 2`, exactly:
entry i is star(amplitude i) * amplitude i. -/
def np_abs_sq (v : SVec) : List Zeta8 :=
  (List.range v.dim).map (fun i => star (v.entry i) * v.entry i)

/-- Cumulative sums of a list starting from an accumulator. -/
def cumsum_from (acc : Zeta8) : List Zeta8 → List Zeta8
  | [] => []
  | x :: xs => (acc + x) :: cumsum_from (acc + x) xs

/-- Model of `np.cumsum`. -/
def np_cumsum (l : List Zeta8) : List Zeta8 := cumsum_from 0 l

/-- Model of `ndarray.searchsorted(u, side right)` on a sorted cdf array: the
first index whose entry strictly exceeds u (the length when there is none). -/
def searchsorted_right (cdf : List Zeta8) (u : Zeta8) : ℕ :=
  match cdf with
  | [] => 0
  | chead :: rest => if Zeta8.zltB u chead then 0 else searchsorted_right rest u + 1

/-- Model of `np.random.choice(n, p=probabilities)`: inverse-cdf sampling of
the uniform draw u in [0, 1) against the cumulative sums of p.  numpy also
validates that p sums to (approximately) 1 and divides the cdf by its last
entry; the measurement theorems below assume the exact normalization
sum p = 1, under which that division is the identity. -/
def np_random_choice (p : List Zeta8) (u : Zeta8) : ℕ :=
  searchsorted_right (np_cumsum p) u

/-- Model of `QuantumSimulator.measure`.  `u` is the uniform draw in [0, 1)
consumed by `np.random.choice` (when qubit is None) or by
`np.random.random()` (single-qubit branch).  Returns the outcome together
with the simulator afterwards.  Note that the single-qubit branch of the
source computes prob_0 and returns the sampled bit without modifying the
state in any way. -/
def QuantumSimulator.measure (sim : QuantumSimulator) (qubit : Option ℕ) (u : Zeta8) :
    ℕ × QuantumSimulator :=
  let probabilities := np_abs_sq sim.state
  match qubit with
  | none =>
    let result := np_random_choice probabilities u
    (result, { sim with state := ⟨sim.num_states, fun i => if i = result then 1 else 0⟩ })
  | some q =>
    let prob_0 := ∑ i in Finset.range sim.num_states,
      (if (i >>> q) &&& 1 = 0 then probabilities.getD i 0 else 0)
    ((if Zeta8.zltB u prob_0 then 0 else 1), sim)

/-- `QuantumSimulator.get_state_vector`: a defensive copy of the state
array (a pure value in the embedding). -/
def get_state_vector (sim : QuantumSimulator) : SVec := sim.state

/-!
Section: Module import

`main.py` can only be used if importing it succeeds.  The class body of
`QuantumSimulator` evaluates each method signature eagerly at definition
time; the embedding records the identifiers those annotations look up and
the names actually in scope when the class body runs.
-/

/-- Names bound by line 16 of the source,
`from typing import List, Tuple, Optional`: `Dict` is not among them. -/
def typing_imported_names : List String := ["List", "Tuple", "Optional"]

/-- The relevant Python builtins (always in scope; `Dict` is not one). -/
def builtin_names : List String :=
  ["int", "str", "float", "bool", "complex", "print", "sum", "range"]

/-- Module-level names bound before the `QuantumSimulator` class body is
executed: numpy as np, datetime, the three typing imports, dataclass, and
the two previously defined classes. -/
def module_names_before_simulator : List String :=
  ["np", "datetime"] ++ typing_imported_names ++
    ["dataclass", "QuantumState", "QuantumGate"]

/-- Evaluating an identifier against an environment: NameError if unbound. -/
def eval_name (env : List String) (n : String) : Except PyErr Unit :=
  if n ∈ env then .ok () else .error (.nameError n)

/-- Evaluating a list of identifiers in order, stopping at the first
failure. -/
def eval_names (env : List String) : List String → Except PyErr Unit
  | [] => .ok ()
  | n :: ns => do
    eval_name env n
    eval_names env ns

/-- The annotation identifiers evaluated, in order, while the
`QuantumSimulator` class body executes: `int` from the signature of
`__init__` (line 43), then `Dict` from the return annotation
`Dict[str, QuantumGate]` of `_initialize_gates` (line 58).  Python evaluates
the head of a subscripted annotation before its arguments, so no later name
is ever reached. -/
def simulator_class_annot_names : List String := ["int", "Dict"]

/-- Executing the `QuantumSimulator` class body: evaluating its method
annotations in order against the names in scope. -/
def exec_simulator_class_body : Except PyErr Unit :=
  eval_names (builtin_names ++ module_names_before_simulator)
    simulator_class_annot_names

/-- Importing `main.py`: the definitions before `QuantumSimulator` succeed,
then the class body runs and its exception propagates out of the import. -/
def import_main : Except PyErr Unit := exec_simulator_class_body

/-- Any use of the simulator requires the module import to succeed first. -/
def import_then_construct (num_qubits : ℤ) : Except PyErr QuantumSimulator := do
  import_main
  mkQuantumSimulator num_qubits

example : import_main = .error (.nameError ("Dict")) := rfl

/-- The error carried by a failed call, if any. -/
def error_of {α : Type} (e : Except PyErr α) : Option PyErr :=
  match e with
  | .error err => some err
  | .ok _ => none

/-- The amplitude at index i of the state after a successful call
(junk value 0 when the call failed). -/
def state_entry (e : Except PyErr QuantumSimulator) (i : ℕ) : Zeta8 :=
  match e with
  | .error _ => 0
  | .ok s => s.state.entry i


/-!
Section: General matrix lemmas
-/

@[simp] lemma np_kron_dim (A B : SMat) : (np_kron A B).dim = A.dim * B.dim := rfl

@[simp] lemma np_kron_entry (A B : SMat) (i j : ℕ) :
    (np_kron A B).entry i j =
      A.entry (i / B.dim) (j / B.dim) * B.entry (i % B.dim) (j % B.dim) := rfl

@[simp] lemma np_eye_dim (n : ℕ) : (np_eye n).dim = n := rfl

@[simp] lemma np_dot_dim (m : SMat) (v : SVec) : (np_dot m v).dim = m.dim := rfl

/-- The matrix agrees with the d x d identity on all indices below d. -/
def IsEyeOn (d : ℕ) (M : SMat) : Prop :=
  M.dim = d ∧ ∀ i j, i < d → j < d → M.entry i j = if i = j then 1 else 0

/-- The matrix has orthonormal columns on all indices below d. -/
def UnitaryOn (d : ℕ) (M : SMat) : Prop :=
  M.dim = d ∧ ∀ i j, i < d → j < d →
    (∑ k in Finset.range d, star (M.entry k i) * M.entry k j) =
      if i = j then 1 else 0

lemma isEyeOn_np_eye (d : ℕ) : IsEyeOn d (np_eye d) :=
  ⟨rfl, fun _ _ _ _ => rfl⟩

lemma sum_range_add_z8 (f : ℕ → Zeta8) (a b : ℕ) :
    ∑ i in Finset.range (a + b), f i =
      (∑ i in Finset.range a, f i) + ∑ i in Finset.range b, f (a + i) := by
  induction b with
  | zero => simp
  | succ b ih =>
    rw [Nat.add_succ, Finset.sum_range_succ, ih, Finset.sum_range_succ, add_assoc]

lemma sum_range_mul_z8 (f : ℕ → Zeta8) (m k : ℕ) :
    ∑ i in Finset.range (m * k), f i =
      ∑ x in Finset.range m, ∑ y in Finset.range k, f (x * k + y) := by
  induction m with
  | zero => simp
  | succ m ih =>
    rw [Nat.succ_mul, sum_range_add_z8, ih, Finset.sum_range_succ]

lemma div_mod_pair_eq {k i j : ℕ} (hk : 0 < k)
    (h1 : i / k = j / k) (h2 : i % k = j % k) : i = j := by
  have hi := Nat.div_add_mod i k
  have hj := Nat.div_add_mod j k
  rw [h1, h2] at hi
  omega

lemma ite_div_mod {k m i j : ℕ} (hk : 0 < k) (hi : i < m * k) (hj : j < m * k) :
    ((if i / k = j / k then (1 : Zeta8) else 0) *
      (if i % k = j % k then 1 else 0)) = if i = j then 1 else 0 := by
  by_cases hij : i = j
  · subst hij; simp
  · have hsplit : ¬(i / k = j / k ∧ i % k = j % k) := by
      intro h
      exact hij (div_mod_pair_eq hk h.1 h.2)
    rcases not_and_or.mp hsplit with h | h
    · rw [if_neg h, if_neg hij, zero_mul]
    · rw [if_neg h, if_neg hij, mul_zero]

lemma isEyeOn_kron {m k : ℕ} {A B : SMat} (hA : IsEyeOn m A) (hB : IsEyeOn k B) :
    IsEyeOn (m * k) (np_kron A B) := by
  refine ⟨by rw [np_kron_dim, hA.1, hB.1], ?_⟩
  intro i j hi hj
  have hk : 0 < k := by
    rcases Nat.eq_zero_or_pos k with h | h
    · subst h; simp at hi
    · exact h
  have hdi : i / k < m := (Nat.div_lt_iff_lt_mul hk).mpr hi
  have hdj : j / k < m := (Nat.div_lt_iff_lt_mul hk).mpr hj
  rw [np_kron_entry, hB.1, hA.2 _ _ hdi hdj,
    hB.2 _ _ (Nat.mod_lt _ hk) (Nat.mod_lt _ hk)]
  exact ite_div_mod hk hi hj

lemma unitaryOn_np_eye (d : ℕ) : UnitaryOn d (np_eye d) := by
  refine ⟨rfl, fun i j hi hj => ?_⟩
  have hmem : i ∈ Finset.range d := Finset.mem_range.mpr hi
  rw [Finset.sum_eq_single_of_mem i hmem]
  · simp only [np_eye]
    by_cases hij : i = j <;> simp [hij]
  · intro kk _ hkk
    simp only [np_eye]
    rw [if_neg hkk]
    simp

lemma unitaryOn_kron {m k : ℕ} {A B : SMat} (hA : UnitaryOn m A) (hB : UnitaryOn k B) :
    UnitaryOn (m * k) (np_kron A B) := by
  refine ⟨by rw [np_kron_dim, hA.1, hB.1], ?_⟩
  intro i j hi hj
  have hk : 0 < k := by
    rcases Nat.eq_zero_or_pos k with h | h
    · subst h; simp at hi
    · exact h
  have hdi : i / k < m := (Nat.div_lt_iff_lt_mul hk).mpr hi
  have hdj : j / k < m := (Nat.div_lt_iff_lt_mul hk).mpr hj
  have hstep : ∀ r : ℕ,
      star ((np_kron A B).entry r i) * (np_kron A B).entry r j =
        (star (A.entry (r / k) (i / k)) * A.entry (r / k) (j / k)) *
          (star (B.entry (r % k) (i % k)) * B.entry (r % k) (j % k)) := by
    intro r
    rw [np_kron_entry, np_kron_entry, hB.1, star_mul]
    ring
  calc ∑ r in Finset.range (m * k),
        star ((np_kron A B).entry r i) * (np_kron A B).entry r j
      = ∑ x in Finset.range m, ∑ y in Finset.range k,
          (star (A.entry x (i / k)) * A.entry x (j / k)) *
            (star (B.entry y (i % k)) * B.entry y (j % k)) := by
        rw [sum_range_mul_z8
          (fun r => star ((np_kron A B).entry r i) * (np_kron A B).entry r j) m k]
        refine Finset.sum_congr rfl (fun x hx => ?_)
        refine Finset.sum_congr rfl (fun y hy => ?_)
        rw [hstep]
        have hy2 : y < k := Finset.mem_range.mp hy
        have hdiv : (x * k + y) / k = x := by
          rw [Nat.add_comm, Nat.add_mul_div_right _ _ hk, Nat.div_eq_of_lt hy2,
            Nat.zero_add]
        have hmod : (x * k + y) % k = y := by
          rw [Nat.add_comm, Nat.add_mul_mod_self_right, Nat.mod_eq_of_lt hy2]
        rw [hdiv, hmod]
    _ = (∑ x in Finset.range m, star (A.entry x (i / k)) * A.entry x (j / k)) *
          (∑ y in Finset.range k, star (B.entry y (i % k)) * B.entry y (j % k)) := by
        rw [Finset.sum_mul_sum]
    _ = (if i / k = j / k then 1 else 0) * (if i % k = j % k then 1 else 0) := by
        rw [hA.2 _ _ hdi hdj, hB.2 _ _ (Nat.mod_lt _ hk) (Nat.mod_lt _ hk)]
    _ = if i = j then 1 else 0 := ite_div_mod hk hi hj

/-- Unfolding one step of the tensor chain of `build_single_qubit_gate`. -/
lemma build_single_succ (g : SMat) (t : ℤ) (n : ℕ) :
    build_single_qubit_gate g t (n + 1) =
      np_kron (build_single_qubit_gate g t n)
        (if (n : ℤ) = t then g else np_eye 2) := by
  unfold build_single_qubit_gate
  rw [List.range_succ, List.foldl_append, List.foldl_cons, List.foldl_nil]

lemma unitaryOn_scalar_one : UnitaryOn 1 (⟨1, fun _ _ => 1⟩ : SMat) := by
  refine ⟨rfl, fun i j hi hj => ?_⟩
  interval_cases i
  interval_cases j
  simp [Finset.sum_range_succ]

lemma isEyeOn_scalar_one : IsEyeOn 1 (⟨1, fun _ _ => 1⟩ : SMat) := by
  refine ⟨rfl, fun i j hi hj => ?_⟩
  interval_cases i
  interval_cases j
  simp

lemma build_single_unitary {g : SMat} (hg : UnitaryOn 2 g) (t : ℤ) (n : ℕ) :
    UnitaryOn (2 ^ n) (build_single_qubit_gate g t n) := by
  induction n with
  | zero => exact unitaryOn_scalar_one
  | succ n ih =>
    rw [build_single_succ, pow_succ]
    refine unitaryOn_kron ih ?_
    split_ifs
    · exact hg
    · exact unitaryOn_np_eye 2

lemma build_single_isEyeOn_of_gate {g : SMat} (hg : IsEyeOn 2 g) (t : ℤ) (n : ℕ) :
    IsEyeOn (2 ^ n) (build_single_qubit_gate g t n) := by
  induction n with
  | zero => exact isEyeOn_scalar_one
  | succ n ih =>
    rw [build_single_succ, pow_succ]
    refine isEyeOn_kron ih ?_
    split_ifs
    · exact hg
    · exact isEyeOn_np_eye 2

lemma build_single_isEyeOn_of_miss {g : SMat} {t : ℤ} {n : ℕ}
    (ht : ∀ i : ℕ, i < n → (i : ℤ) ≠ t) :
    IsEyeOn (2 ^ n) (build_single_qubit_gate g t n) := by
  induction n with
  | zero => exact isEyeOn_scalar_one
  | succ n ih =>
    rw [build_single_succ, pow_succ]
    refine isEyeOn_kron (ih (fun i hi => ht i (Nat.lt_succ_of_lt hi))) ?_
    rw [if_neg (ht n (Nat.lt_succ_self n))]
    exact isEyeOn_np_eye 2

/-- Applying a matrix that agrees with the identity leaves every in-range
amplitude unchanged. -/
lemma np_dot_isEyeOn {d : ℕ} {M : SMat} (hM : IsEyeOn d M) {v : SVec}
    (hv : v.dim = d) : ∀ i, i < d → (np_dot M v).entry i = v.entry i := by
  intro i hi
  show (∑ j in Finset.range v.dim, M.entry i j * v.entry j) = v.entry i
  rw [hv]
  calc ∑ j in Finset.range d, M.entry i j * v.entry j
      = ∑ j in Finset.range d, (if i = j then 1 else 0) * v.entry j := by
        refine Finset.sum_congr rfl (fun j hj => ?_)
        rw [hM.2 i j hi (Finset.mem_range.mp hj)]
    _ = v.entry i := by
        rw [Finset.sum_eq_single_of_mem i (Finset.mem_range.mpr hi)]
        · simp
        · intro kk _ hkk
          rw [if_neg (fun h => hkk h.symm), zero_mul]

/-- Applying a unitary matrix preserves the exact squared norm. -/
lemma np_dot_normSq {d : ℕ} {M : SMat} (hM : UnitaryOn d M) {v : SVec}
    (hv : v.dim = d) : normSq (np_dot M v) = normSq v := by
  unfold normSq np_dot
  simp only [hv, hM.1]
  calc ∑ i in Finset.range d,
        star (∑ j in Finset.range d, M.entry i j * v.entry j) *
          (∑ kk in Finset.range d, M.entry i kk * v.entry kk)
      = ∑ i in Finset.range d, ∑ j in Finset.range d, ∑ kk in Finset.range d,
          star (M.entry i j * v.entry j) * (M.entry i kk * v.entry kk) := by
        refine Finset.sum_congr rfl (fun i _ => ?_)
        rw [star_sum, Finset.sum_mul_sum]
    _ = ∑ j in Finset.range d, ∑ kk in Finset.range d,
          (star (v.entry j) * v.entry kk) *
            ∑ i in Finset.range d, star (M.entry i j) * M.entry i kk := by
        rw [Finset.sum_comm]
        refine Finset.sum_congr rfl (fun j _ => ?_)
        rw [Finset.sum_comm]
        refine Finset.sum_congr rfl (fun kk _ => ?_)
        rw [Finset.mul_sum]
        refine Finset.sum_congr rfl (fun i _ => ?_)
        rw [star_mul]
        ring
    _ = ∑ j in Finset.range d,
          (star (v.entry j) * v.entry j) := by
        refine Finset.sum_congr rfl (fun j hj => ?_)
        rw [Finset.sum_eq_single_of_mem j hj]
        · rw [hM.2 j j (Finset.mem_range.mp hj) (Finset.mem_range.mp hj)]
          simp
        · intro kk hkk hne
          rw [hM.2 j kk (Finset.mem_range.mp hj) (Finset.mem_range.mp hkk),
            if_neg (fun h => hne h.symm), mul_zero]

/-!
Section: Gate catalog lemmas
-/

lemma find_gate_none {gate_name : String} (h : ¬ gate_name ∈ gate_catalog) :
    init_gates.find? (fun p => p.1 == gate_name) = none := by
  simp only [gate_catalog, init_gates, List.map_cons, List.map_nil,
    List.mem_cons, List.not_mem_nil, or_false, not_or] at h
  obtain ⟨h1, h2, h3, h4, h5, h6, h7, h8⟩ := h
  have e1 : (("I" : String) == gate_name) = false :=
    beq_eq_false_iff_ne.mpr (fun hh => h1 hh.symm)
  have e2 : (("X" : String) == gate_name) = false :=
    beq_eq_false_iff_ne.mpr (fun hh => h2 hh.symm)
  have e3 : (("Y" : String) == gate_name) = false :=
    beq_eq_false_iff_ne.mpr (fun hh => h3 hh.symm)
  have e4 : (("Z" : String) == gate_name) = false :=
    beq_eq_false_iff_ne.mpr (fun hh => h4 hh.symm)
  have e5 : (("H" : String) == gate_name) = false :=
    beq_eq_false_iff_ne.mpr (fun hh => h5 hh.symm)
  have e6 : (("S" : String) == gate_name) = false :=
    beq_eq_false_iff_ne.mpr (fun hh => h6 hh.symm)
  have e7 : (("T" : String) == gate_name) = false :=
    beq_eq_false_iff_ne.mpr (fun hh => h7 hh.symm)
  have e8 : (("CNOT" : String) == gate_name) = false :=
    beq_eq_false_iff_ne.mpr (fun hh => h8 hh.symm)
  simp [init_gates, List.find?, e1, e2, e3, e4, e5, e6, e7, e8]

lemma find_gate_mem {gate_name : String} {p : String × QuantumGate}
    (h : init_gates.find? (fun q => q.1 == gate_name) = some p) :
    p.2.matrix = mat2 1 0 0 1 ∨ p.2.matrix = mat2 0 1 1 0 ∨
    p.2.matrix = mat2 0 (-iZ8) iZ8 0 ∨ p.2.matrix = mat2 1 0 0 (-1) ∨
    p.2.matrix = mat2 invSqrt2 invSqrt2 invSqrt2 (-invSqrt2) ∨
    p.2.matrix = mat2 1 0 0 iZ8 ∨ p.2.matrix = mat2 1 0 0 zetaPhase ∨
    p.2.matrix = mat4 1 0 0 0 0 1 0 0 0 0 0 1 0 0 1 0 := by
  have hmem := List.mem_of_find?_eq_some h
  simp only [init_gates, List.mem_cons, List.not_mem_nil, or_false] at hmem
  rcases hmem with h | h | h | h | h | h | h | h <;> subst h <;> simp


/-- Unitarity of a concrete 2 x 2 gate reduces to four amplitude
identities. -/
lemma unitaryOn_mat2 {x00 x01 x10 x11 : Zeta8}
    (h00 : star x00 * x00 + star x10 * x10 = 1)
    (h01 : star x00 * x01 + star x10 * x11 = 0)
    (h10 : star x01 * x00 + star x11 * x10 = 0)
    (h11 : star x01 * x01 + star x11 * x11 = 1) :
    UnitaryOn 2 (mat2 x00 x01 x10 x11) := by
  refine ⟨rfl, fun i j hi hj => ?_⟩
  rw [Finset.sum_range_succ, Finset.sum_range_succ, Finset.sum_range_zero,
    zero_add]
  interval_cases i <;> interval_cases j <;>
    (simp only [mat2]; norm_num) <;>
    first
      | exact h00
      | exact h01
      | exact h10
      | exact h11


lemma unitary_gate_I : UnitaryOn 2 (mat2 1 0 0 1) := by
  refine unitaryOn_mat2 ?_ ?_ ?_ ?_ <;>
    (ext <;>
      simp only [ Zeta8.add_a, Zeta8.add_b, Zeta8.add_c, Zeta8.add_d,
        Zeta8.mul_a, Zeta8.mul_b, Zeta8.mul_c, Zeta8.mul_d,
        Zeta8.star_a, Zeta8.star_b, Zeta8.star_c, Zeta8.star_d,
        Zeta8.one_a, Zeta8.one_b, Zeta8.one_c, Zeta8.one_d,
        Zeta8.zero_a, Zeta8.zero_b, Zeta8.zero_c, Zeta8.zero_d,
        Zeta8.neg_a, Zeta8.neg_b, Zeta8.neg_c, Zeta8.neg_d] <;>
      norm_num)

lemma unitary_gate_X : UnitaryOn 2 (mat2 0 1 1 0) := by
  refine unitaryOn_mat2 ?_ ?_ ?_ ?_ <;>
    (ext <;>
      simp only [ Zeta8.add_a, Zeta8.add_b, Zeta8.add_c, Zeta8.add_d,
        Zeta8.mul_a, Zeta8.mul_b, Zeta8.mul_c, Zeta8.mul_d,
        Zeta8.star_a, Zeta8.star_b, Zeta8.star_c, Zeta8.star_d,
        Zeta8.one_a, Zeta8.one_b, Zeta8.one_c, Zeta8.one_d,
        Zeta8.zero_a, Zeta8.zero_b, Zeta8.zero_c, Zeta8.zero_d,
        Zeta8.neg_a, Zeta8.neg_b, Zeta8.neg_c, Zeta8.neg_d] <;>
      norm_num)

lemma unitary_gate_Y : UnitaryOn 2 (mat2 0 (-iZ8) iZ8 0) := by
  refine unitaryOn_mat2 ?_ ?_ ?_ ?_ <;>
    (ext <;>
      simp only [iZ8,  Zeta8.add_a, Zeta8.add_b, Zeta8.add_c, Zeta8.add_d,
        Zeta8.mul_a, Zeta8.mul_b, Zeta8.mul_c, Zeta8.mul_d,
        Zeta8.star_a, Zeta8.star_b, Zeta8.star_c, Zeta8.star_d,
        Zeta8.one_a, Zeta8.one_b, Zeta8.one_c, Zeta8.one_d,
        Zeta8.zero_a, Zeta8.zero_b, Zeta8.zero_c, Zeta8.zero_d,
        Zeta8.neg_a, Zeta8.neg_b, Zeta8.neg_c, Zeta8.neg_d] <;>
      norm_num)

lemma unitary_gate_Z : UnitaryOn 2 (mat2 1 0 0 (-1)) := by
  refine unitaryOn_mat2 ?_ ?_ ?_ ?_ <;>
    (ext <;>
      simp only [ Zeta8.add_a, Zeta8.add_b, Zeta8.add_c, Zeta8.add_d,
        Zeta8.mul_a, Zeta8.mul_b, Zeta8.mul_c, Zeta8.mul_d,
        Zeta8.star_a, Zeta8.star_b, Zeta8.star_c, Zeta8.star_d,
        Zeta8.one_a, Zeta8.one_b, Zeta8.one_c, Zeta8.one_d,
        Zeta8.zero_a, Zeta8.zero_b, Zeta8.zero_c, Zeta8.zero_d,
        Zeta8.neg_a, Zeta8.neg_b, Zeta8.neg_c, Zeta8.neg_d] <;>
      norm_num)

lemma unitary_gate_H : UnitaryOn 2 (mat2 invSqrt2 invSqrt2 invSqrt2 (-invSqrt2)) := by
  refine unitaryOn_mat2 ?_ ?_ ?_ ?_ <;>
    (ext <;>
      simp only [invSqrt2,  Zeta8.add_a, Zeta8.add_b, Zeta8.add_c, Zeta8.add_d,
        Zeta8.mul_a, Zeta8.mul_b, Zeta8.mul_c, Zeta8.mul_d,
        Zeta8.star_a, Zeta8.star_b, Zeta8.star_c, Zeta8.star_d,
        Zeta8.one_a, Zeta8.one_b, Zeta8.one_c, Zeta8.one_d,
        Zeta8.zero_a, Zeta8.zero_b, Zeta8.zero_c, Zeta8.zero_d,
        Zeta8.neg_a, Zeta8.neg_b, Zeta8.neg_c, Zeta8.neg_d] <;>
      norm_num)

lemma unitary_gate_S : UnitaryOn 2 (mat2 1 0 0 iZ8) := by
  refine unitaryOn_mat2 ?_ ?_ ?_ ?_ <;>
    (ext <;>
      simp only [iZ8,  Zeta8.add_a, Zeta8.add_b, Zeta8.add_c, Zeta8.add_d,
        Zeta8.mul_a, Zeta8.mul_b, Zeta8.mul_c, Zeta8.mul_d,
        Zeta8.star_a, Zeta8.star_b, Zeta8.star_c, Zeta8.star_d,
        Zeta8.one_a, Zeta8.one_b, Zeta8.one_c, Zeta8.one_d,
        Zeta8.zero_a, Zeta8.zero_b, Zeta8.zero_c, Zeta8.zero_d,
        Zeta8.neg_a, Zeta8.neg_b, Zeta8.neg_c, Zeta8.neg_d] <;>
      norm_num)

lemma unitary_gate_T : UnitaryOn 2 (mat2 1 0 0 zetaPhase) := by
  refine unitaryOn_mat2 ?_ ?_ ?_ ?_ <;>
    (ext <;>
      simp only [zetaPhase,  Zeta8.add_a, Zeta8.add_b, Zeta8.add_c, Zeta8.add_d,
        Zeta8.mul_a, Zeta8.mul_b, Zeta8.mul_c, Zeta8.mul_d,
        Zeta8.star_a, Zeta8.star_b, Zeta8.star_c, Zeta8.star_d,
        Zeta8.one_a, Zeta8.one_b, Zeta8.one_c, Zeta8.one_d,
        Zeta8.zero_a, Zeta8.zero_b, Zeta8.zero_c, Zeta8.zero_d,
        Zeta8.neg_a, Zeta8.neg_b, Zeta8.neg_c, Zeta8.neg_d] <;>
      norm_num)

/-!
Section: Claims (first group)
-/

/-- Claim C3: the return annotation `Dict[str, QuantumGate]` on
`QuantumSimulator._initialize_gates` references the name `Dict`, which the
typing import (List, Tuple, Optional only) never binds, so evaluating the
class body raises NameError and importing the module fails; consequently,
for every argument value, constructing a QuantumSimulator (and hence every
documented operation on it) is unreachable as written. -/
theorem claim_C3 :
    import_main = .error (.nameError ("Dict")) ∧
      ∀ num_qubits : ℤ,
        import_then_construct num_qubits = .error (.nameError ("Dict")) := by
  constructor
  · rfl
  · intro n
    rfl

/-- Claim C7: for every gate name outside the fixed catalog
{I, X, Y, Z, H, S, T, CNOT}, `apply_gate` fails with the documented
unknown-gate error -- realized by the source as
`ValueError("Unknown gate: ...")` raised before any state assignment, so
the call returns the error and the state vector is exactly the one from
before the call. -/
theorem claim_C7 (sim : QuantumSimulator) (gate_name : String)
    (target_qubit : ℤ) (control_qubit : Option ℤ)
    (h : ¬ gate_name ∈ gate_catalog) :
    apply_gate sim gate_name target_qubit control_qubit =
      .error (.valueError ("Unknown gate: " ++ gate_name)) := by
  unfold apply_gate
  rw [find_gate_none h]

/-- Witness for C7 at the concrete unknown name FOO. -/
theorem claim_C7_witness :
    ¬ (("FOO") ∈ gate_catalog) ∧
      apply_gate (initSim 1) ("FOO") 0 none =
        .error (.valueError ("Unknown gate: " ++ "FOO")) :=
  ⟨by decide, claim_C7 (initSim 1) ("FOO") 0 none (by decide)⟩

/-- The number of qubits recorded by a successful call (junk 0 on error). -/
def ok_num_qubits (e : Except PyErr QuantumSimulator) : ℕ :=
  match e with
  | .error _ => 0
  | .ok s => s.num_qubits

/-- The state length after a successful call (junk 0 on error). -/
def ok_state_dim (e : Except PyErr QuantumSimulator) : ℕ :=
  match e with
  | .error _ => 0
  | .ok s => s.state.dim

/-- Reduction of a successful single-qubit `apply_gate` call. -/
lemma apply_gate_eq_of_find (sim : QuantumSimulator) {gate_name : String}
    {p : String × QuantumGate}
    (hfind : init_gates.find? (fun q => q.1 == gate_name) = some p) (t : ℤ)
    (hdim : (build_single_qubit_gate p.2.matrix t sim.num_qubits).dim =
      sim.state.dim) :
    apply_gate sim gate_name t none =
      .ok { sim with
        state := np_dot (build_single_qubit_gate p.2.matrix t sim.num_qubits)
          sim.state } := by
  unfold apply_gate
  rw [hfind]
  simp only [hdim, eq_self_iff_true, if_true]

/-- Reduction of a controlled `apply_gate` call: the stub applies
`np.eye(num_states)`. -/
lemma apply_gate_ctrl_eq_of_find (sim : QuantumSimulator) {gate_name : String}
    {p : String × QuantumGate}
    (hfind : init_gates.find? (fun q => q.1 == gate_name) = some p) (t c : ℤ)
    (hdim : sim.num_states = sim.state.dim) :
    apply_gate sim gate_name t (some c) =
      .ok { sim with state := np_dot (np_eye sim.num_states) sim.state } := by
  unfold apply_gate
  rw [hfind]
  simp only [build_controlled_gate, np_eye_dim, hdim, eq_self_iff_true, if_true]

lemma isEyeOn_gate_I : IsEyeOn 2 (mat2 1 0 0 1) := by
  refine ⟨rfl, fun i j hi hj => ?_⟩
  interval_cases i <;> interval_cases j <;> norm_num [mat2]

/-- Claim C10: for every number of qubits n >= 1, every valid target qubit
q in [0, n), and every state vector of the register dimension, applying the
identity gate I succeeds and leaves every amplitude of the state vector
unchanged (exactly, hence within any floating-point tolerance). -/
theorem claim_C10 (n : ℕ) (hn : 1 ≤ n) (v : SVec) (hv : v.dim = 2 ^ n)
    (q : ℤ) (hq0 : 0 ≤ q) (hqn : q < (n : ℤ)) :
    error_of (apply_gate ⟨n, 2 ^ n, v⟩ ("I") q none) = none ∧
      ok_num_qubits (apply_gate ⟨n, 2 ^ n, v⟩ ("I") q none) = n ∧
      ok_state_dim (apply_gate ⟨n, 2 ^ n, v⟩ ("I") q none) = 2 ^ n ∧
      ∀ i, i < 2 ^ n →
        state_entry (apply_gate ⟨n, 2 ^ n, v⟩ ("I") q none) i = v.entry i := by
  have hfind : init_gates.find? (fun p => p.1 == ("I")) =
      some (("I"), ⟨("I"), mat2 1 0 0 1⟩) := by
    simp [init_gates, List.find?]
  have heye : IsEyeOn (2 ^ n) (build_single_qubit_gate (mat2 1 0 0 1) q n) :=
    build_single_isEyeOn_of_gate isEyeOn_gate_I q n
  have hdim : (build_single_qubit_gate (mat2 1 0 0 1) q n).dim = v.dim := by
    rw [heye.1, hv]
  have happ := apply_gate_eq_of_find ⟨n, 2 ^ n, v⟩ hfind q hdim
  rw [happ]
  refine ⟨rfl, rfl, ?_, ?_⟩
  · show (np_dot (build_single_qubit_gate (mat2 1 0 0 1) q n) v).dim = 2 ^ n
    rw [np_dot_dim, heye.1]
  · intro i hi
    show (np_dot (build_single_qubit_gate (mat2 1 0 0 1) q n) v).entry i =
      v.entry i
    exact np_dot_isEyeOn heye hv i hi

/-- Witness for C10: a 1-qubit register in the all-zero state, target 0. -/
theorem claim_C10_witness :
    error_of (apply_gate ⟨1, 2 ^ 1, (initSim 1).state⟩ ("I") 0 none) = none ∧
      state_entry (apply_gate ⟨1, 2 ^ 1, (initSim 1).state⟩ ("I") 0 none) 0 =
        (initSim 1).state.entry 0 ∧
      state_entry (apply_gate ⟨1, 2 ^ 1, (initSim 1).state⟩ ("I") 0 none) 1 =
        (initSim 1).state.entry 1 :=
  ⟨(claim_C10 1 (by decide) (initSim 1).state rfl 0 (by decide) (by decide)).1,
   (claim_C10 1 (by decide) (initSim 1).state rfl 0 (by decide) (by decide)).2.2.2
     0 (by decide),
   (claim_C10 1 (by decide) (initSim 1).state rfl 0 (by decide) (by decide)).2.2.2
     1 (by decide)⟩

lemma find_gate_exists {gate_name : String} (h : gate_name ∈ gate_catalog) :
    ∃ p, init_gates.find? (fun q => q.1 == gate_name) = some p := by
  have hsome : (init_gates.find? (fun q => q.1 == gate_name)).isSome := by
    rw [List.find?_isSome]
    simp only [gate_catalog, List.mem_map] at h
    obtain ⟨p, hp, hpname⟩ := h
    exact ⟨p, hp, by simp [hpname]⟩
  exact Option.isSome_iff_exists.mp hsome

/-- Counterexample to claim C6 as stated: on a 2-qubit simulator,
`apply_gate("X", 5)` raises no error at all, while the claim demands an
InvalidQubitIndexError failure. -/
theorem claim_C6_cex : error_of (apply_gate (initSim 2) ("X") 5 none) = none := by
  have hfind : init_gates.find? (fun p => p.1 == ("X")) =
      some (("X"), ⟨("X"), mat2 0 1 1 0⟩) := by
    simp [init_gates, List.find?]
  have hmiss : ∀ i : ℕ, i < 2 → (i : ℤ) ≠ 5 := by
    intro i hi
    omega
  have heye := build_single_isEyeOn_of_miss (g := mat2 0 1 1 0) hmiss
  rw [apply_gate_eq_of_find (initSim 2) hfind 5 (by exact heye.1)]
  rfl

/-- Claim C6 (amended): the source never validates qubit indices and no
InvalidQubitIndexError exists.  A single-qubit application of a catalog gate
whose target lies outside [0, n) builds an all-identity tensor chain, so it
succeeds and leaves every amplitude unchanged; a controlled application --
for every control and target, including control = target and out-of-range
values -- applies the identity stub and likewise succeeds with every
amplitude unchanged. -/
theorem claim_C6_amended (sim : QuantumSimulator)
    (hdim : sim.state.dim = 2 ^ sim.num_qubits)
    (hns : sim.num_states = 2 ^ sim.num_qubits)
    (gate_name : String) (hname : gate_name ∈ gate_catalog) :
    (∀ t : ℤ, (t < 0 ∨ (sim.num_qubits : ℤ) ≤ t) →
      error_of (apply_gate sim gate_name t none) = none ∧
      ok_state_dim (apply_gate sim gate_name t none) = sim.state.dim ∧
      ∀ i, i < sim.state.dim →
        state_entry (apply_gate sim gate_name t none) i = sim.state.entry i) ∧
    (∀ t c : ℤ,
      error_of (apply_gate sim gate_name t (some c)) = none ∧
      ok_state_dim (apply_gate sim gate_name t (some c)) = sim.state.dim ∧
      ∀ i, i < sim.state.dim →
        state_entry (apply_gate sim gate_name t (some c)) i = sim.state.entry i) := by
  obtain ⟨p, hfind⟩ := find_gate_exists hname
  constructor
  · intro t ht
    have hmiss : ∀ i : ℕ, i < sim.num_qubits → (i : ℤ) ≠ t := by
      intro i hi
      rcases ht with h | h <;> omega
    have heye := build_single_isEyeOn_of_miss (g := p.2.matrix) hmiss
    have hdim2 : (build_single_qubit_gate p.2.matrix t sim.num_qubits).dim =
        sim.state.dim := by
      rw [heye.1, hdim]
    rw [apply_gate_eq_of_find sim hfind t hdim2]
    refine ⟨rfl, ?_, ?_⟩
    · show (np_dot (build_single_qubit_gate p.2.matrix t sim.num_qubits)
        sim.state).dim = sim.state.dim
      rw [np_dot_dim, heye.1, hdim]
    · intro i hi
      show (np_dot (build_single_qubit_gate p.2.matrix t sim.num_qubits)
        sim.state).entry i = sim.state.entry i
      exact np_dot_isEyeOn heye hdim i (hdim ▸ hi)
  · intro t c
    have hns2 : sim.num_states = sim.state.dim := by rw [hns, hdim]
    rw [apply_gate_ctrl_eq_of_find sim hfind t c hns2]
    refine ⟨rfl, ?_, ?_⟩
    · show (np_dot (np_eye sim.num_states) sim.state).dim = sim.state.dim
      rw [np_dot_dim, np_eye_dim, hns2]
    · intro i hi
      exact np_dot_isEyeOn (isEyeOn_np_eye sim.num_states) hns2.symm i
        (by rw [← hns2] at hi; exact hi)

/-- Witness for the amended C6: gate H with target 5 on 2 qubits, and a
controlled CNOT with control = target = 1. -/
theorem claim_C6_amended_witness :
    error_of (apply_gate (initSim 2) ("H") 5 none) = none ∧
      state_entry (apply_gate (initSim 2) ("H") 5 none) 0 =
        (initSim 2).state.entry 0 ∧
      error_of (apply_gate (initSim 2) ("CNOT") 1 (some 1)) = none ∧
      state_entry (apply_gate (initSim 2) ("CNOT") 1 (some 1)) 3 =
        (initSim 2).state.entry 3 :=
  ⟨((claim_C6_amended (initSim 2) rfl rfl ("H") (by decide)).1 5
      (by decide)).1,
   ((claim_C6_amended (initSim 2) rfl rfl ("H") (by decide)).1 5
      (by decide)).2.2 0 (by decide),
   ((claim_C6_amended (initSim 2) rfl rfl ("CNOT") (by decide)).2 1 1).1,
   ((claim_C6_amended (initSim 2) rfl rfl ("CNOT") (by decide)).2 1 1).2.2 3
      (by decide)⟩

/-- Counterexample to claim C8 as stated: constructing with num_qubits = 0
(which is < 1) does not fail: it succeeds and yields the 1-dimensional
state [1]. -/
theorem claim_C8_cex :
    error_of (mkQuantumSimulator 0) = none ∧
      ok_state_dim (mkQuantumSimulator 0) = 1 ∧
      state_entry (mkQuantumSimulator 0) 0 = 1 :=
  ⟨rfl, rfl, rfl⟩

/-- Claim C8 (amended): the constructor validates nothing and no
InvalidQubitCountError exists in the source.  For every num_qubits >= 0
(including 0, which the claim says must fail) construction succeeds and
produces the all-zero basis state: length 2^num_qubits, amplitude 1 at
index 0 and 0 elsewhere -- for num_qubits >= 1 exactly as the second half
of the claim states; for negative num_qubits the call fails, but with a
numpy TypeError (np.zeros applied to the float 2 ** num_qubits), not a
qubit-count error. -/
theorem claim_C8_amended (num_qubits : ℤ) :
    (0 ≤ num_qubits →
      error_of (mkQuantumSimulator num_qubits) = none ∧
      ok_state_dim (mkQuantumSimulator num_qubits) = 2 ^ num_qubits.toNat ∧
      state_entry (mkQuantumSimulator num_qubits) 0 = 1 ∧
      ∀ i, 0 < i → state_entry (mkQuantumSimulator num_qubits) i = 0) ∧
    (num_qubits < 0 →
      mkQuantumSimulator num_qubits =
        .error (.typeError ("float object cannot be interpreted as an integer"))) := by
  constructor
  · intro h
    unfold mkQuantumSimulator
    rw [if_neg (by omega)]
    refine ⟨rfl, rfl, rfl, fun i hi => ?_⟩
    show (if i = 0 then (1 : Zeta8) else 0) = 0
    rw [if_neg (by omega)]
  · intro h
    unfold mkQuantumSimulator
    rw [if_pos h]

/-- Witness for the amended C8 at num_qubits = 1 and num_qubits = -1. -/
theorem claim_C8_witness :
    (error_of (mkQuantumSimulator 1) = none ∧
      ok_state_dim (mkQuantumSimulator 1) = 2 ^ (1 : ℤ).toNat ∧
      state_entry (mkQuantumSimulator 1) 0 = 1) ∧
      mkQuantumSimulator (-1) =
        .error (.typeError ("float object cannot be interpreted as an integer")) :=
  ⟨⟨((claim_C8_amended 1).1 (by decide)).1,
    ((claim_C8_amended 1).1 (by decide)).2.1,
    ((claim_C8_amended 1).1 (by decide)).2.2.1⟩,
   (claim_C8_amended (-1)).2 (by decide)⟩

/-!
Section: Bit-index characterization of the tensor chain
-/

lemma xor_pow_div_two (c k : ℕ) :
    (c ^^^ 2 ^ (k + 1)) / 2 = (c / 2) ^^^ 2 ^ k := by
  refine Nat.eq_of_testBit_eq fun i => ?_
  simp [Nat.testBit_div_two, Nat.testBit_xor, Nat.testBit_two_pow]

lemma xor_pow_mod_two (c k : ℕ) : (c ^^^ 2 ^ (k + 1)) % 2 = c % 2 := by
  rw [Nat.xor_mod_two_eq]
  have : 2 ^ (k + 1) % 2 = 0 := by
    rw [pow_succ, Nat.mul_mod_left]
  omega

lemma xor_one_div_two (c : ℕ) : (c ^^^ 1) / 2 = c / 2 := by
  refine Nat.eq_of_testBit_eq fun i => ?_
  have h1 : Nat.testBit 1 (i + 1) = false :=
    Nat.testBit_eq_false_of_lt (Nat.one_lt_two_pow_iff.mpr (by omega))
  simp [Nat.testBit_div_two, Nat.testBit_xor, h1]

lemma xor_one_mod_two (c : ℕ) : (c ^^^ 1) % 2 = 1 - c % 2 := by
  rw [Nat.xor_mod_two_eq]
  omega

lemma nat_eq_iff_div_mod_two {r m : ℕ} :
    r = m ↔ (r / 2 = m / 2 ∧ r % 2 = m % 2) := by
  constructor
  · intro h
    subst h
    exact ⟨rfl, rfl⟩
  · intro h
    exact div_mod_pair_eq (by omega) h.1 h.2

/-- The expanded X gate, characterized entrywise: with target t in
[0, n), the chain flips bit (n - 1 - t) of the basis index -- the factor
for qubit t sits at the high-order end of the Kronecker product. -/
lemma build_single_X_entry {t n : ℕ} (ht : t < n) :
    ∀ r c : ℕ, r < 2 ^ n → c < 2 ^ n →
      (build_single_qubit_gate (mat2 0 1 1 0) (t : ℤ) n).entry r c =
        if r = c ^^^ 2 ^ (n - 1 - t) then 1 else 0 := by
  induction n with
  | zero => omega
  | succ n ih =>
    intro r c hr hc
    rw [build_single_succ]
    have hr2 : r / 2 < 2 ^ n := by
      rw [Nat.div_lt_iff_lt_mul (by omega)]
      rw [pow_succ] at hr
      exact hr
    have hc2 : c / 2 < 2 ^ n := by
      rw [Nat.div_lt_iff_lt_mul (by omega)]
      rw [pow_succ] at hc
      exact hc
    rcases Nat.lt_or_ge t n with htn | htn
    · have hne : ¬ ((n : ℤ) = (t : ℕ)) := by
        intro h
        omega
      rw [np_kron_entry, if_neg hne]
      show (build_single_qubit_gate (mat2 0 1 1 0) (t : ℤ) n).entry
          (r / 2) (c / 2) * (np_eye 2).entry (r % 2) (c % 2) = _
      rw [ih htn (r / 2) (c / 2) hr2 hc2]
      have hexp : n + 1 - 1 - t = (n - 1 - t) + 1 := by omega
      rw [hexp]
      have hdiv : (c ^^^ 2 ^ ((n - 1 - t) + 1)) / 2 = (c / 2) ^^^ 2 ^ (n - 1 - t) :=
        xor_pow_div_two c (n - 1 - t)
      have hmod : (c ^^^ 2 ^ ((n - 1 - t) + 1)) % 2 = c % 2 :=
        xor_pow_mod_two c (n - 1 - t)
    
      by_cases hb : r = c ^^^ 2 ^ ((n - 1 - t) + 1)
      · have h1 : r / 2 = (c / 2) ^^^ 2 ^ (n - 1 - t) := by
          rw [hb, hdiv]
        have h2 : r % 2 = c % 2 := by rw [hb, hmod]
        rw [if_pos h1, if_pos hb]
        show (1 : Zeta8) * (if r % 2 = c % 2 then 1 else 0) = 1
        rw [if_pos h2, mul_one]
      · rw [if_neg hb]
        have hsplit : ¬ (r / 2 = (c / 2) ^^^ 2 ^ (n - 1 - t) ∧ r % 2 = c % 2) := by
          intro hand
          apply hb
          rw [nat_eq_iff_div_mod_two, hdiv, hmod]
          exact hand
        rcases not_and_or.mp hsplit with h | h
        · rw [if_neg h, zero_mul]
        · show (if r / 2 = (c / 2) ^^^ 2 ^ (n - 1 - t) then (1 : Zeta8) else 0) *
            (if r % 2 = c % 2 then 1 else 0) = 0
          rw [if_neg h, mul_zero]
    · have ht2 : t = n := by omega
      subst ht2
      rw [np_kron_entry, if_pos rfl]
      have heye := build_single_isEyeOn_of_miss
        (g := mat2 0 1 1 0) (t := (t : ℤ)) (n := t) (by intro i hi; omega)
      show (build_single_qubit_gate (mat2 0 1 1 0) (t : ℤ) t).entry
          (r / 2) (c / 2) * (mat2 0 1 1 0).entry (r % 2) (c % 2) = _
      rw [heye.2 (r / 2) (c / 2) hr2 hc2]
      have hexp : t + 1 - 1 - t = 0 := by omega
      rw [hexp, pow_zero]
      have hdiv : (c ^^^ 1) / 2 = c / 2 := xor_one_div_two c
      have hmod : (c ^^^ 1) % 2 = 1 - c % 2 := xor_one_mod_two c
      have hrm : r % 2 = 0 ∨ r % 2 = 1 := by omega
      have hcm : c % 2 = 0 ∨ c % 2 = 1 := by omega
      by_cases hb : r = c ^^^ 1
      · have h1 : r / 2 = c / 2 := by rw [hb, hdiv]
        have h2 : r % 2 = 1 - c % 2 := by rw [hb, hmod]
        rw [if_pos h1, if_pos hb, one_mul]
        rcases hcm with h | h <;> rw [h] at h2 <;> norm_num at h2 <;>
          norm_num [mat2, h, h2]
      · rw [if_neg hb]
        have hsplit : ¬ (r / 2 = c / 2 ∧ r % 2 = 1 - c % 2) := by
          intro hand
          apply hb
          rw [nat_eq_iff_div_mod_two, hdiv, hmod]
          exact hand
        rcases not_and_or.mp hsplit with h | h
        · rw [if_neg h, zero_mul]
        · rcases hrm with h1 | h1 <;> rcases hcm with h2 | h2 <;>
            rw [h1, h2] at h ⊢ <;>
            first
              | (norm_num [mat2]; done)
              | exact absurd (by norm_num) h

lemma build_single_dim {g : SMat} (hg : g.dim = 2) (t : ℤ) (n : ℕ) :
    (build_single_qubit_gate g t n).dim = 2 ^ n := by
  induction n with
  | zero => rfl
  | succ n ih =>
    rw [build_single_succ, np_kron_dim, ih, pow_succ]
    congr 1
    split_ifs
    · exact hg
    · rfl

/-- An n-qubit simulator holding the basis state at index j. -/
def basis_sim (n j : ℕ) : QuantumSimulator :=
  ⟨n, 2 ^ n, ⟨2 ^ n, fun i => if i = j then 1 else 0⟩⟩

lemma np_dot_basis {M : SMat} {d j : ℕ} (hj : j < d) (r : ℕ) :
    (np_dot M ⟨d, fun i => if i = j then 1 else 0⟩).entry r = M.entry r j := by
  show (∑ c in Finset.range d, M.entry r c * (if c = j then 1 else 0)) =
    M.entry r j
  rw [Finset.sum_eq_single_of_mem j (Finset.mem_range.mpr hj)]
  · rw [if_pos rfl, mul_one]
  · intro b _ hb
    rw [if_neg hb, mul_zero]

lemma np_abs_sq_getD (v : SVec) (i : ℕ) (hi : i < v.dim) :
    (np_abs_sq v).getD i 0 = star (v.entry i) * v.entry i := by
  unfold np_abs_sq
  rw [List.getD_eq_getElem?_getD, List.getElem?_map, List.getElem?_range hi]
  rfl

/-- Reduction of the single-qubit branch of `measure`. -/
lemma measure_single_eq (sim : QuantumSimulator) (q : ℕ) (u : Zeta8) :
    QuantumSimulator.measure sim (some q) u =
      ((if Zeta8.zltB u (∑ i in Finset.range sim.num_states,
          (if (i >>> q) &&& 1 = 0 then (np_abs_sq sim.state).getD i 0 else 0))
        then 0 else 1), sim) := rfl

lemma zltB_true_of_rlt {u c : Zeta8} (h : u.rlt c) : Zeta8.zltB u c = true :=
  (Zeta8.zltB_iff u c).mpr h

lemma zltB_false_of_rle {u c : Zeta8} (h : c.rle u) :
    Zeta8.zltB u c = false := by
  rw [Bool.eq_false_iff, ne_eq, Zeta8.zltB_iff]
  unfold Zeta8.rle at h
  unfold Zeta8.rlt
  intro h2
  linarith

/-- Claim C5 (amended): the source uses two different bit conventions, not
one.  Gate expansion places qubit q at Kronecker position q counted from
the most significant end of the index: applying X to qubit q maps the
basis state at index j to the basis state at index j XOR 2^(n-1-q), not
j XOR 2^q.  Single-qubit measurement instead reads bit q from the least
significant end: measuring qubit q of the basis state at index j returns
(j >> q) & 1 with certainty.  The two conventions coincide only when
q = n - 1 - q. -/
theorem claim_C5_amended (n q j : ℕ) (hn : 1 ≤ n) (hq : q < n) (hj : j < 2 ^ n)
    (u : Zeta8) (hu0 : Zeta8.rle 0 u) (hu1 : Zeta8.rlt u 1) :
    (error_of (apply_gate (basis_sim n j) ("X") (q : ℤ) none) = none ∧
      ∀ i, i < 2 ^ n →
        state_entry (apply_gate (basis_sim n j) ("X") (q : ℤ) none) i =
          if i = j ^^^ 2 ^ (n - 1 - q) then 1 else 0) ∧
    (QuantumSimulator.measure (basis_sim n j) (some q) u).1 =
      (j >>> q) &&& 1 := by
  have hfind : init_gates.find? (fun p => p.1 == ("X")) =
      some (("X"), ⟨("X"), mat2 0 1 1 0⟩) := by
    simp [init_gates, List.find?]
  have hdim : (build_single_qubit_gate (mat2 0 1 1 0) (q : ℤ) n).dim =
      (basis_sim n j).state.dim := by
    rw [build_single_dim rfl]
    rfl
  have happ := apply_gate_eq_of_find (basis_sim n j) hfind (q : ℤ) hdim
  refine ⟨⟨?_, ?_⟩, ?_⟩
  · rw [happ]
    rfl
  · intro i hi
    rw [happ]
    show (np_dot (build_single_qubit_gate (mat2 0 1 1 0) (q : ℤ) n)
      ⟨2 ^ n, fun i => if i = j then 1 else 0⟩).entry i = _
    rw [np_dot_basis hj, build_single_X_entry hq i j hi hj]
  · rw [measure_single_eq]
    have hbit : (j >>> q) &&& 1 = 0 ∨ (j >>> q) &&& 1 = 1 := by
      have := Nat.and_one_is_mod (j >>> q)
      omega
    have hprob : (∑ i in Finset.range (basis_sim n j).num_states,
        (if (i >>> q) &&& 1 = 0
          then (np_abs_sq (basis_sim n j).state).getD i 0 else 0)) =
        if (j >>> q) &&& 1 = 0 then 1 else 0 := by
      have hsum : ∀ i ∈ Finset.range (2 ^ n),
          (if (i >>> q) &&& 1 = 0
            then (np_abs_sq (basis_sim n j).state).getD i 0 else 0) =
          (if (i >>> q) &&& 1 = 0 then (if i = j then 1 else 0) else 0) := by
        intro i hi
        have hgetd := np_abs_sq_getD (basis_sim n j).state i
          (Finset.mem_range.mp hi)
        rw [hgetd]
        show (if (i >>> q) &&& 1 = 0
          then star (if i = j then (1 : Zeta8) else 0) * (if i = j then 1 else 0)
          else 0) = _
        by_cases hij : i = j
        · simp [hij]
        · simp [hij]
      show (∑ i in Finset.range (2 ^ n),
        (if (i >>> q) &&& 1 = 0
          then (np_abs_sq (basis_sim n j).state).getD i 0 else 0)) = _
      rw [Finset.sum_congr rfl hsum,
        Finset.sum_eq_single_of_mem j (Finset.mem_range.mpr hj)]
      · by_cases hc : (j >>> q) &&& 1 = 0 <;> simp [hc]
      · intro b _ hb
        by_cases hc : (b >>> q) &&& 1 = 0 <;> simp [hc, hb]
    rw [hprob]
    rcases hbit with h | h
    · rw [h]
      show (if Zeta8.zltB u (if 0 = 0 then 1 else 0) then 0 else 1) = 0
      rw [if_pos rfl, zltB_true_of_rlt hu1, if_pos rfl]
    · rw [h]
      show (if Zeta8.zltB u (if 1 = 0 then 1 else 0) then 0 else 1) = 1
      rw [if_neg one_ne_zero, zltB_false_of_rle hu0]
      rfl

/-- Counterexample to claim C5 as stated: on a 2-qubit register in state
|00>, applying X to qubit 0 must by the claim produce the basis state at
index 0 XOR 2^0 = 1; the code instead leaves amplitude 0 there (it flips
the most significant bit, producing index 2). -/
theorem claim_C5_cex :
    ¬ (state_entry (apply_gate (initSim 2) ("X") 0 none) (0 ^^^ 2 ^ 0) = 1) := by
  intro hcontra
  have hfind : init_gates.find? (fun p => p.1 == ("X")) =
      some (("X"), ⟨("X"), mat2 0 1 1 0⟩) := by
    simp [init_gates, List.find?]
  have h0 : state_entry (apply_gate (initSim 2) ("X") 0 none) 1 = 0 := by
    simp only [state_entry, apply_gate, hfind]
    norm_num [build_single_qubit_gate, List.range_succ, np_kron, np_eye,
      np_dot, mat2, initSim, Finset.sum_range_succ]
  rw [show (0 ^^^ 2 ^ 0) = 1 from rfl, h0] at hcontra
  have hcomp := congrArg Zeta8.a hcontra
  norm_num at hcomp

/-- Witness for the amended C5: two qubits, target qubit 0, basis state
|00>, uniform draw 0. -/
theorem claim_C5_witness :
    error_of (apply_gate (basis_sim 2 0) ("X") ((0 : ℕ) : ℤ) none) = none ∧
      state_entry (apply_gate (basis_sim 2 0) ("X") ((0 : ℕ) : ℤ) none) 2 =
        (if 2 = 0 ^^^ 2 ^ (2 - 1 - 0) then 1 else 0) ∧
      (QuantumSimulator.measure (basis_sim 2 0) (some 0) 0).1 =
        (0 >>> 0) &&& 1 :=
  ⟨((claim_C5_amended 2 0 0 (by decide) (by decide) (by decide) 0
      (by norm_num [Zeta8.rle]) (by norm_num [Zeta8.rlt])).1).1,
   ((claim_C5_amended 2 0 0 (by decide) (by decide) (by decide) 0
      (by norm_num [Zeta8.rle]) (by norm_num [Zeta8.rlt])).1).2 2 (by decide),
   (claim_C5_amended 2 0 0 (by decide) (by decide) (by decide) 0
      (by norm_num [Zeta8.rle]) (by norm_num [Zeta8.rlt])).2⟩

/-- The entanglement branch of `run_algorithm` (source lines 169-170): H on
qubit 0, then CNOT with target 1 and control 0, on a fresh 2-qubit
register. -/
def run_entanglement : Except PyErr QuantumSimulator :=
  (apply_gate (initSim 2) ("H") 0 none).bind
    (fun s1 => apply_gate s1 ("CNOT") 1 (some 0))

/-- Claim C1 exhibits the controlled-gate bug.  The controlled-gate
builder is an identity stub: for every gate matrix, control, target and
dimension it returns np.eye, so components with control bit 1 are left
unchanged instead of having the gate applied.  Consequently H on qubit 0
followed by CNOT(control 0, target 1) does not produce the Bell state:
the final amplitudes are [1/sqrt 2, 0, 1/sqrt 2, 0], so index 2 (binary
10, which the claim requires to be 0) carries amplitude 1/sqrt 2 and index
3 (binary 11, which the claim requires to be about 1/sqrt 2) carries 0. -/
theorem claim_C1_bug :
    (∀ (g : SMat) (c t : ℤ) (d : ℕ), build_controlled_gate g c t d = np_eye d) ∧
    error_of run_entanglement = none ∧
    state_entry run_entanglement 0 = invSqrt2 ∧
    state_entry run_entanglement 1 = 0 ∧
    state_entry run_entanglement 2 = invSqrt2 ∧
    state_entry run_entanglement 3 = 0 ∧
    invSqrt2 ≠ 0 := by
  have hfindH : init_gates.find? (fun p => p.1 == ("H")) =
      some (("H"), ⟨("H"), mat2 invSqrt2 invSqrt2 invSqrt2 (-invSqrt2)⟩) := by
    simp [init_gates, List.find?]
  have hfindC : init_gates.find? (fun p => p.1 == ("CNOT")) =
      some (("CNOT"), ⟨("CNOT"), mat4 1 0 0 0 0 1 0 0 0 0 0 1 0 0 1 0⟩) := by
    simp [init_gates, List.find?]
  have hne : invSqrt2 ≠ 0 := by
    intro h
    have hb := congrArg Zeta8.b h
    norm_num [invSqrt2] at hb
  refine ⟨fun g c t d => rfl, ?_, ?_, ?_, ?_, ?_, hne⟩ <;>
    (simp only [run_entanglement, error_of, state_entry, apply_gate, hfindH,
      hfindC]
     norm_num [build_single_qubit_gate, build_controlled_gate, List.range_succ,
       np_kron, np_eye, np_dot, mat2, initSim, Finset.sum_range_succ,
       invSqrt2, Except.bind])

/-- Single-qubit measurement of qubit 0 with uniform draw u, after H on a
fresh 1-qubit register (the 50/50 superposition [1/sqrt 2, 1/sqrt 2]). -/
def measure_after_H (u : Zeta8) : Except PyErr (ℕ × QuantumSimulator) :=
  (apply_gate (initSim 1) ("H") 0 none).map
    (fun s1 => QuantumSimulator.measure s1 (some 0) u)

/-- Claim C2 exhibits the missing collapse.  The single-qubit branch of
`measure` computes the outcome probability and returns, never writing to
the state: for every simulator, qubit and draw, the state after the call
is bit-for-bit the state before.  Concretely, on one qubit in state
H|0> = [1/sqrt 2, 1/sqrt 2], measuring qubit 0 with draw u = 0 yields
outcome 0, yet afterwards get_state_vector still has amplitude 1/sqrt 2
at basis index 1 -- an index whose bit 0 is 1, inconsistent with the
outcome, and the surviving amplitudes are not renormalized. -/
theorem claim_C2_bug :
    (∀ (sim : QuantumSimulator) (q : ℕ) (u : Zeta8),
      (QuantumSimulator.measure sim (some q) u).2 = sim) ∧
    (measure_after_H 0).map Prod.fst = .ok 0 ∧
    (measure_after_H 0).map (fun r => (get_state_vector r.2).entry 1) =
      .ok invSqrt2 ∧
    invSqrt2 ≠ 0 := by
  have hfindH : init_gates.find? (fun p => p.1 == ("H")) =
      some (("H"), ⟨("H"), mat2 invSqrt2 invSqrt2 invSqrt2 (-invSqrt2)⟩) := by
    simp [init_gates, List.find?]
  have hne : invSqrt2 ≠ 0 := by
    intro h
    have hb := congrArg Zeta8.b h
    norm_num [invSqrt2] at hb
  refine ⟨fun sim q u => rfl, ?_, ?_, hne⟩ <;>
    (simp only [measure_after_H, apply_gate, hfindH, QuantumSimulator.measure,
      get_state_vector]
     norm_num [build_single_qubit_gate, List.range_succ, np_kron, np_eye,
       np_dot, mat2, initSim, Finset.sum_range_succ, invSqrt2, np_abs_sq,
       Zeta8.zltB, Zeta8.nnegB, Except.map])

/-!
Section: Order lemmas for the real subfield
-/

lemma rlt_of_zltB_true {u c : Zeta8} (h : Zeta8.zltB u c = true) : u.rlt c :=
  (Zeta8.zltB_iff u c).mp h

lemma rle_of_zltB_false {u c : Zeta8} (h : Zeta8.zltB u c = false) : c.rle u := by
  by_contra hcon
  have hur : u.rlt c := by
    unfold Zeta8.rle at hcon
    unfold Zeta8.rlt
    push_neg at hcon
    exact hcon
  rw [zltB_true_of_rlt hur] at h
  cases h

lemma Zeta8.rle_trans {x y z : Zeta8} (h1 : x.rle y) (h2 : y.rle z) :
    x.rle z := by
  unfold Zeta8.rle at *
  linarith

lemma not_rlt_of_rle {x y : Zeta8} (h : x.rle y) : ¬ y.rlt x := by
  unfold Zeta8.rle at h
  unfold Zeta8.rlt
  intro h2
  linarith

lemma rle_add_nonneg {x s : Zeta8} (hs : Zeta8.rle 0 s) : x.rle (x + s) := by
  unfold Zeta8.rle at *
  simp only [Zeta8.add_a, Zeta8.add_b, Zeta8.zero_a, Zeta8.zero_b] at *
  push_cast at *
  linarith

lemma sum_nonneg_rle {l : List Zeta8} (h : ∀ z ∈ l, Zeta8.rle 0 z) :
    Zeta8.rle 0 l.sum := by
  induction l with
  | nil =>
    rw [List.sum_nil]
    unfold Zeta8.rle
    exact le_refl _
  | cons x xs ih =>
    rw [List.sum_cons]
    have h1 := h x (List.mem_cons_self x xs)
    have h2 := ih (fun z hz => h z (List.mem_cons_of_mem x hz))
    unfold Zeta8.rle at *
    simp only [Zeta8.add_a, Zeta8.add_b, Zeta8.zero_a, Zeta8.zero_b] at *
    push_cast at *
    linarith

lemma sum_take_nonneg {l : List Zeta8} (h : ∀ z ∈ l, Zeta8.rle 0 z) (i : ℕ) :
    Zeta8.rle 0 (l.take i).sum :=
  sum_nonneg_rle (fun z hz => h z (List.mem_of_mem_take hz))

/-- Probabilities are nonnegative: |z|^2 = (z.a^2 + z.b^2 + z.c^2 + z.d^2)
plus a sqrt-2 part, and the whole value is a sum of two real squares. -/
lemma rle_zero_star_mul_self (z : Zeta8) : Zeta8.rle 0 (star z * z) := by
  unfold Zeta8.rle
  have hs2 : Real.sqrt 2 ^ 2 = 2 := Real.sq_sqrt (by norm_num)
  simp only [Zeta8.mul_a, Zeta8.mul_b, Zeta8.star_a, Zeta8.star_b,
    Zeta8.star_c, Zeta8.star_d, Zeta8.zero_a, Zeta8.zero_b]
  push_cast
  have key : 0 ≤ (2 * (z.a : ℝ) + ((z.b : ℝ) - (z.d : ℝ)) * Real.sqrt 2) ^ 2 +
      (2 * (z.c : ℝ) + ((z.b : ℝ) + (z.d : ℝ)) * Real.sqrt 2) ^ 2 := by
    positivity
  have expand : (2 * (z.a : ℝ) + ((z.b : ℝ) - (z.d : ℝ)) * Real.sqrt 2) ^ 2 +
      (2 * (z.c : ℝ) + ((z.b : ℝ) + (z.d : ℝ)) * Real.sqrt 2) ^ 2 =
      4 * ((z.a : ℝ) * z.a + (z.b : ℝ) * z.b + (z.c : ℝ) * z.c +
        (z.d : ℝ) * z.d) +
      4 * ((z.a : ℝ) * z.b - (z.d : ℝ) * z.a + (z.c : ℝ) * z.d +
        (z.b : ℝ) * z.c) * Real.sqrt 2 := by
    linear_combination (((z.b : ℝ) - z.d) ^ 2 + ((z.b : ℝ) + z.d) ^ 2) * hs2
  nlinarith [key, expand]

lemma np_abs_sq_nonneg (v : SVec) : ∀ z ∈ np_abs_sq v, Zeta8.rle 0 z := by
  intro z hz
  unfold np_abs_sq at hz
  obtain ⟨i, _, rfl⟩ := List.mem_map.mp hz
  exact rle_zero_star_mul_self _

lemma zeta8_zero_ne_one : (0 : Zeta8) ≠ 1 := by
  intro h
  have ha := congrArg Zeta8.a h
  norm_num at ha

/-!
Section: Inverse-cdf sampling characterization
-/

lemma searchsorted_spec (p : List Zeta8) :
    ∀ (acc u : Zeta8), (∀ z ∈ p, Zeta8.rle 0 z) → acc.rle u →
    ∀ i : ℕ, i < p.length →
      (searchsorted_right (cumsum_from acc p) u = i ↔
        (acc + (p.take i).sum).rle u ∧ u.rlt (acc + (p.take (i + 1)).sum)) := by
  induction p with
  | nil =>
    intro acc u hnn hacc i hi
    simp at hi
  | cons x xs ih =>
    intro acc u hnn hacc i hi
    cases i with
    | zero =>
      simp only [cumsum_from, searchsorted_right]
      constructor
      · intro h
        by_cases hb : Zeta8.zltB u (acc + x) = true
        · refine ⟨?_, ?_⟩
          · rw [List.take_zero, List.sum_nil, add_zero]
            exact hacc
          · rw [List.take_succ_cons, List.take_zero, List.sum_cons,
              List.sum_nil, add_zero]
            exact rlt_of_zltB_true hb
        · have hbf : Zeta8.zltB u (acc + x) = false := by
            rcases hcase : Zeta8.zltB u (acc + x) with _ | _
            · rfl
            · exact absurd hcase hb
          rw [hbf] at h
          simp at h
      · rintro ⟨h1, h2⟩
        rw [List.take_succ_cons, List.take_zero, List.sum_cons, List.sum_nil,
          add_zero] at h2
        rw [if_pos (zltB_true_of_rlt h2)]
    | succ i =>
      simp only [cumsum_from, searchsorted_right]
      by_cases hb : Zeta8.zltB u (acc + x) = true
      · rw [if_pos hb]
        constructor
        · intro h
          exact absurd h (by omega)
        · rintro ⟨h1, h2⟩
          exfalso
          rw [List.take_succ_cons, List.sum_cons] at h1
          have hs : Zeta8.rle 0 (xs.take i).sum :=
            sum_take_nonneg (fun z hz => hnn z (List.mem_cons_of_mem x hz)) i
          have hstep : (acc + x).rle (acc + (x + (xs.take i).sum)) := by
            rw [← add_assoc]
            exact rle_add_nonneg hs
          exact (not_rlt_of_rle (Zeta8.rle_trans hstep h1))
            (rlt_of_zltB_true hb)
      · have hbf : Zeta8.zltB u (acc + x) = false := by
          rcases hcase : Zeta8.zltB u (acc + x) with _ | _
          · rfl
          · exact absurd hcase hb
        rw [if_neg hb, Nat.add_right_cancel_iff]
        rw [List.take_succ_cons, List.sum_cons, List.take_succ_cons,
          List.sum_cons, ← add_assoc, ← add_assoc]
        exact ih (acc + x) u (fun z hz => hnn z (List.mem_cons_of_mem x hz))
          (rle_of_zltB_false hbf) i (by simpa using hi)

lemma searchsorted_lt_length (p : List Zeta8) :
    ∀ (acc u : Zeta8), p ≠ [] → u.rlt (acc + p.sum) →
      searchsorted_right (cumsum_from acc p) u < p.length := by
  induction p with
  | nil =>
    intro acc u hp _
    exact absurd rfl hp
  | cons x xs ih =>
    intro acc u _ hu
    simp only [cumsum_from, searchsorted_right, List.length_cons]
    by_cases hb : Zeta8.zltB u (acc + x) = true
    · rw [if_pos hb]
      omega
    · rw [if_neg hb]
      have hbf : Zeta8.zltB u (acc + x) = false := by
        rcases hcase : Zeta8.zltB u (acc + x) with _ | _
        · rfl
        · exact absurd hcase hb
      rcases eq_or_ne xs [] with hnil | hne
      · exfalso
        subst hnil
        rw [List.sum_cons, List.sum_nil, add_zero] at hu
        exact (not_rlt_of_rle (rle_of_zltB_false hbf)) hu
      · have hrec := ih (acc + x) u hne
          (by rw [List.sum_cons, ← add_assoc] at hu; exact hu)
        omega

/-- Reduction of the full-register branch of `measure`. -/
lemma measure_all_eq (sim : QuantumSimulator) (u : Zeta8) :
    QuantumSimulator.measure sim none u =
      (np_random_choice (np_abs_sq sim.state) u,
        { sim with state := ⟨sim.num_states,
          fun i => if i = np_random_choice (np_abs_sq sim.state) u then 1
            else 0⟩ }) := rfl

/-- Claim C9: full-register measurement samples its outcome in [0, 2^n)
from the categorical distribution with probabilities p_i = |amplitude_i|^2
and collapses the state to the one-hot vector at the outcome.  Formally,
whenever the probabilities sum to 1 (the normalization `np.random.choice`
validates) and the uniform draw u lies in [0, 1), the outcome is a valid
index; the outcome equals i exactly when u falls in the half-open interval
from S_i to S_i + p_i, where S_i is the sum of the first i probabilities
and p_i = |amplitude_i|^2 is the length of the interval; and afterwards the
state has amplitude 1.0 at the outcome and 0 at every other index. -/
theorem claim_C9 (sim : QuantumSimulator) (u : Zeta8)
    (hns : sim.num_states = sim.state.dim)
    (hsum1 : (np_abs_sq sim.state).sum = 1)
    (hu0 : Zeta8.rle 0 u) (hu1 : u.rlt 1) :
    (QuantumSimulator.measure sim none u).1 < sim.state.dim ∧
    (∀ i, i < sim.state.dim →
      ((QuantumSimulator.measure sim none u).1 = i ↔
        Zeta8.rle ((np_abs_sq sim.state).take i).sum u ∧
          u.rlt (((np_abs_sq sim.state).take i).sum +
            star (sim.state.entry i) * sim.state.entry i))) ∧
    (∀ j, j < sim.state.dim →
      (QuantumSimulator.measure sim none u).2.state.entry j =
        if j = (QuantumSimulator.measure sim none u).1 then 1 else 0) ∧
    (QuantumSimulator.measure sim none u).2.state.dim = sim.state.dim := by
  have hlen : (np_abs_sq sim.state).length = sim.state.dim := by
    unfold np_abs_sq
    rw [List.length_map, List.length_range]
  have hnn := np_abs_sq_nonneg sim.state
  have hne : np_abs_sq sim.state ≠ [] := by
    intro h
    rw [h, List.sum_nil] at hsum1
    exact zeta8_zero_ne_one hsum1
  have hu1s : u.rlt (0 + (np_abs_sq sim.state).sum) := by
    rw [hsum1, zero_add]
    exact hu1
  have hlt : searchsorted_right (cumsum_from 0 (np_abs_sq sim.state)) u <
      (np_abs_sq sim.state).length :=
    searchsorted_lt_length _ 0 u hne hu1s
  have hacc : Zeta8.rle 0 u := hu0
  refine ⟨?_, ?_, ?_, ?_⟩
  · show np_random_choice (np_abs_sq sim.state) u < sim.state.dim
    rw [← hlen]
    exact hlt
  · intro i hi
    show np_random_choice (np_abs_sq sim.state) u = i ↔ _
    have hspec := searchsorted_spec (np_abs_sq sim.state) 0 u hnn hacc i
      (by rw [hlen]; exact hi)
    rw [zero_add, zero_add] at hspec
    have htake : ((np_abs_sq sim.state).take (i + 1)).sum =
        ((np_abs_sq sim.state).take i).sum +
          star (sim.state.entry i) * sim.state.entry i := by
      rw [List.sum_take_succ _ _ (by rw [hlen]; exact hi)]
      congr 1
      unfold np_abs_sq
      rw [List.getElem_map, List.getElem_range]
    rw [htake] at hspec
    exact hspec
  · intro j hj
    rfl
  · show sim.num_states = sim.state.dim
    exact hns

/-- Witness for C9: a fresh 1-qubit register (probabilities [1, 0]) and
draw u = 0. -/
theorem claim_C9_witness :
    (QuantumSimulator.measure (initSim 1) none 0).1 < (initSim 1).state.dim ∧
      ((QuantumSimulator.measure (initSim 1) none 0).1 = 0 ↔
        Zeta8.rle ((np_abs_sq (initSim 1).state).take 0).sum 0 ∧
          Zeta8.rlt 0 (((np_abs_sq (initSim 1).state).take 0).sum +
            star ((initSim 1).state.entry 0) * (initSim 1).state.entry 0)) ∧
      (QuantumSimulator.measure (initSim 1) none 0).2.state.entry 1 =
        (if 1 = (QuantumSimulator.measure (initSim 1) none 0).1 then 1
          else 0) :=
  ⟨(claim_C9 (initSim 1) 0 rfl
      (by norm_num [np_abs_sq, initSim, List.range_succ])
      (by norm_num [Zeta8.rle]) (by norm_num [Zeta8.rlt])).1,
   (claim_C9 (initSim 1) 0 rfl
      (by norm_num [np_abs_sq, initSim, List.range_succ])
      (by norm_num [Zeta8.rle]) (by norm_num [Zeta8.rlt])).2.1 0 (by decide),
   (claim_C9 (initSim 1) 0 rfl
      (by norm_num [np_abs_sq, initSim, List.range_succ])
      (by norm_num [Zeta8.rle]) (by norm_num [Zeta8.rlt])).2.2.1 1
      (by decide)⟩

/-!
Section: Driver programs: sequences of gate applications and measurements
-/

/-- One operation of a driver program against the simulator: a gate
application, a full-register measurement, or a single-qubit measurement
(each measurement carrying the uniform draw its RNG consumes). -/
inductive SimOp where
  | gate (gate_name : String) (target : ℤ) (control : Option ℤ)
  | measure_all (u : Zeta8)
  | measure_one (q : ℕ) (u : Zeta8)

/-- Running one operation.  When apply_gate raises, the assignment to
self.state was never executed, so the simulator is unchanged. -/
def run_op (sim : QuantumSimulator) : SimOp → QuantumSimulator
  | .gate gate_name target control =>
    match apply_gate sim gate_name target control with
    | .ok s2 => s2
    | .error _ => sim
  | .measure_all u => (QuantumSimulator.measure sim none u).2
  | .measure_one q u => (QuantumSimulator.measure sim (some q) u).2

/-- Running a driver program left to right. -/
def run_ops (sim : QuantumSimulator) (ops : List SimOp) : QuantumSimulator :=
  ops.foldl run_op sim

/-- A full-register measurement consumes a uniform draw in [0, 1); the
other operations are unconstrained. -/
def ValidOp : SimOp → Prop
  | .gate _ _ _ => True
  | .measure_all u => Zeta8.rle 0 u ∧ u.rlt 1
  | .measure_one _ _ => True

/-- The simulator invariant: consistent dimensions and exact unit norm. -/
def SimInv (n : ℕ) (sim : QuantumSimulator) : Prop :=
  sim.num_qubits = n ∧ sim.num_states = 2 ^ n ∧ sim.state.dim = 2 ^ n ∧
    normSq sim.state = 1

lemma list_sum_map_range (f : ℕ → Zeta8) (n : ℕ) :
    ((List.range n).map f).sum = ∑ i in Finset.range n, f i := by
  induction n with
  | zero => rfl
  | succ n ih =>
    rw [List.range_succ, List.map_append, List.sum_append, ih,
      Finset.sum_range_succ]
    simp

lemma np_abs_sq_sum (v : SVec) : (np_abs_sq v).sum = normSq v :=
  list_sum_map_range _ _

lemma normSq_one_hot {d r : ℕ} (hr : r < d) :
    normSq ⟨d, fun i => if i = r then 1 else 0⟩ = 1 := by
  unfold normSq
  rw [Finset.sum_eq_single_of_mem r (Finset.mem_range.mpr hr)]
  · simp
  · intro b _ hb
    simp [hb]

lemma normSq_congr {v w : SVec} (hd : w.dim = v.dim)
    (h : ∀ i, i < v.dim → w.entry i = v.entry i) : normSq w = normSq v := by
  unfold normSq
  rw [hd]
  exact Finset.sum_congr rfl (fun i hi => by
    rw [h i (Finset.mem_range.mp hi)])

/-- apply_gate raises ValueError when the built operator size differs from
the state length (the np.dot shape check). -/
lemma apply_gate_err_of_dim (sim : QuantumSimulator) {gate_name : String}
    {p : String × QuantumGate}
    (hfind : init_gates.find? (fun q => q.1 == gate_name) = some p) (t : ℤ)
    (hne : (build_single_qubit_gate p.2.matrix t sim.num_qubits).dim ≠
      sim.state.dim) :
    apply_gate sim gate_name t none =
      .error (.valueError ("shapes not aligned")) := by
  unfold apply_gate
  rw [hfind]
  simp only [if_neg hne]

lemma build_single_dim_prod (g : SMat) (t : ℤ) (n : ℕ) :
    (build_single_qubit_gate g t n).dim =
      ∏ i in Finset.range n, (if (i : ℤ) = t then g.dim else 2) := by
  induction n with
  | zero => rfl
  | succ n ih =>
    rw [build_single_succ, np_kron_dim, ih, Finset.prod_range_succ]
    congr 1
    split_ifs <;> rfl

/-- When a 4 x 4 gate is inserted in the chain (target hit), the operator
has twice the register dimension. -/
lemma build_single_dim_hit {g : SMat} (hg : g.dim = 4) {t : ℤ} {n : ℕ}
    (i0 : ℕ) (hi0 : i0 < n) (hit : (i0 : ℤ) = t) :
    (build_single_qubit_gate g t n).dim = 4 * 2 ^ (n - 1) := by
  rw [build_single_dim_prod]
  have hmem : i0 ∈ Finset.range n := Finset.mem_range.mpr hi0
  rw [← Finset.mul_prod_erase (Finset.range n)
    (fun i => if (i : ℤ) = t then g.dim else 2) hmem, if_pos hit, hg]
  congr 1
  rw [Finset.prod_congr rfl (fun i hi => ?_), Finset.prod_const,
    Finset.card_erase_of_mem hmem, Finset.card_range]
  rw [if_neg]
  intro hcontra
  have : i = i0 := by
    have := hit ▸ hcontra
    exact_mod_cast this
  exact (Finset.mem_erase.mp hi).1 this

/-- One step preserves the invariant. -/
lemma run_op_inv {n : ℕ} {sim : QuantumSimulator} (hinv : SimInv n sim)
    {op : SimOp} (hop : ValidOp op) : SimInv n (run_op sim op) := by
  obtain ⟨hq, hns, hdim, hnorm⟩ := hinv
  cases op with
  | gate gate_name target control =>
    cases hfind : init_gates.find? (fun p => p.1 == gate_name) with
    | none =>
      have herr : apply_gate sim gate_name target control =
          .error (.valueError ("Unknown gate: " ++ gate_name)) := by
        unfold apply_gate
        rw [hfind]
      simp only [run_op, herr]
      exact ⟨hq, hns, hdim, hnorm⟩
    | some p =>
      cases control with
      | some c =>
        have happ := apply_gate_ctrl_eq_of_find sim hfind target c
          (by rw [hns, hdim])
        simp only [run_op, happ]
        refine ⟨hq, hns, ?_, ?_⟩
        · show (np_dot (np_eye sim.num_states) sim.state).dim = 2 ^ n
          rw [np_dot_dim, np_eye_dim, hns]
        · have hU : UnitaryOn (2 ^ n) (np_eye sim.num_states) := by
            rw [hns]
            exact unitaryOn_np_eye _
          show normSq (np_dot (np_eye sim.num_states) sim.state) = 1
          rw [np_dot_normSq hU hdim]
          exact hnorm
      | none =>
        have h2or4 := find_gate_mem hfind
        have hgate2 : p.2.matrix.dim = 2 ∨
            p.2.matrix = mat4 1 0 0 0 0 1 0 0 0 0 0 1 0 0 1 0 := by
          rcases h2or4 with h | h | h | h | h | h | h | h <;> rw [h] <;>
            first
              | exact Or.inl rfl
              | exact Or.inr rfl
        have hunitary2 : p.2.matrix.dim = 2 → UnitaryOn 2 p.2.matrix := by
          intro hd2
          rcases h2or4 with h | h | h | h | h | h | h | h <;> rw [h] <;> rw [h] at hd2 <;>
            first
              | exact unitary_gate_I
              | exact unitary_gate_X
              | exact unitary_gate_Y
              | exact unitary_gate_Z
              | exact unitary_gate_H
              | exact unitary_gate_S
              | exact unitary_gate_T
              | exact absurd hd2 (by decide)
        rcases hgate2 with hg2 | hg4
        · -- a 2 x 2 gate: the chain is unitary of the register dimension
          have hU := build_single_unitary (hunitary2 hg2) target
            sim.num_qubits
          have hdim2 : (build_single_qubit_gate p.2.matrix target
              sim.num_qubits).dim = sim.state.dim := by
            rw [build_single_dim hg2, hq, hdim]
          have happ := apply_gate_eq_of_find sim hfind target hdim2
          simp only [run_op, happ]
          refine ⟨hq, hns, ?_, ?_⟩
          · show (np_dot (build_single_qubit_gate p.2.matrix target
              sim.num_qubits) sim.state).dim = 2 ^ n
            rw [np_dot_dim, build_single_dim hg2, hq]
          · show normSq (np_dot (build_single_qubit_gate p.2.matrix target
              sim.num_qubits) sim.state) = 1
            have hdim3 : sim.state.dim = 2 ^ sim.num_qubits := by
              rw [hdim, hq]
            rw [np_dot_normSq hU hdim3]
            exact hnorm
        · -- CNOT used as a single-qubit gate
          by_cases hhit : ∃ i : ℕ, i < sim.num_qubits ∧ (i : ℤ) = target
          · -- the 4 x 4 block is inserted: np.dot raises on the shape
            obtain ⟨i0, hi0, hit⟩ := hhit
            have hd4 : (build_single_qubit_gate p.2.matrix target
                sim.num_qubits).dim = 4 * 2 ^ (sim.num_qubits - 1) :=
              build_single_dim_hit (by rw [hg4]; rfl) i0 hi0 hit
            have hne2 : (build_single_qubit_gate p.2.matrix target
                sim.num_qubits).dim ≠ sim.state.dim := by
              rw [hd4, hq, hdim]
              have hpos : 0 < 2 ^ (n - 1) := Nat.pos_pow_of_pos _ (by omega)
              have hn1 : 1 ≤ n := by omega
              have : 2 ^ n = 2 * 2 ^ (n - 1) := by
                rw [← pow_succ']
                congr 1
                omega
              omega
            have herr := apply_gate_err_of_dim sim hfind target hne2
            simp only [run_op, herr]
            exact ⟨hq, hns, hdim, hnorm⟩
          · -- target misses every position: the chain is the identity
            push_neg at hhit
            have heye := build_single_isEyeOn_of_miss
              (g := p.2.matrix) (t := target) (n := sim.num_qubits)
              (fun i hi => hhit i hi)
            have hdim2 : (build_single_qubit_gate p.2.matrix target
                sim.num_qubits).dim = sim.state.dim := by
              rw [heye.1, hq, hdim]
            have happ := apply_gate_eq_of_find sim hfind target hdim2
            simp only [run_op, happ]
            refine ⟨hq, hns, ?_, ?_⟩
            · show (np_dot (build_single_qubit_gate p.2.matrix target
                sim.num_qubits) sim.state).dim = 2 ^ n
              rw [np_dot_dim, heye.1, hq]
            · show normSq (np_dot (build_single_qubit_gate p.2.matrix target
                sim.num_qubits) sim.state) = 1
              have hdim3 : sim.state.dim = 2 ^ sim.num_qubits := by
                rw [hdim, hq]
              rw [normSq_congr (by rw [np_dot_dim, heye.1, hdim3])
                (fun i hi => np_dot_isEyeOn heye hdim3 i (hdim3 ▸ hi))]
              exact hnorm
  | measure_all u =>
    obtain ⟨hu0, hu1⟩ := hop
    have hsum1 : (np_abs_sq sim.state).sum = 1 := by
      rw [np_abs_sq_sum]
      exact hnorm
    have hlen : (np_abs_sq sim.state).length = sim.state.dim := by
      unfold np_abs_sq
      rw [List.length_map, List.length_range]
    have hne : np_abs_sq sim.state ≠ [] := by
      intro h
      rw [h, List.sum_nil] at hsum1
      exact zeta8_zero_ne_one hsum1
    have hlt : searchsorted_right (cumsum_from 0 (np_abs_sq sim.state)) u <
        (np_abs_sq sim.state).length :=
      searchsorted_lt_length _ 0 u hne (by rw [hsum1, zero_add]; exact hu1)
    refine ⟨hq, hns, hns.symm ▸ rfl, ?_⟩
    show normSq ⟨sim.num_states,
      fun i => if i = np_random_choice (np_abs_sq sim.state) u then 1
        else 0⟩ = 1
    have hres : np_random_choice (np_abs_sq sim.state) u < sim.num_states := by
      rw [hns, ← hdim, ← hlen]
      exact hlt
    exact normSq_one_hot hres
  | measure_one q u =>
    exact ⟨hq, hns, hdim, hnorm⟩

lemma run_ops_inv {n : ℕ} (ops : List SimOp) :
    ∀ sim : QuantumSimulator, SimInv n sim → (∀ op ∈ ops, ValidOp op) →
      SimInv n (run_ops sim ops) := by
  induction ops with
  | nil =>
    intro sim hinv _
    exact hinv
  | cons op ops ih =>
    intro sim hinv hops
    show SimInv n (run_ops (run_op sim op) ops)
    exact ih (run_op sim op)
      (run_op_inv hinv (hops op (List.mem_cons_self op ops)))
      (fun o ho => hops o (List.mem_cons_of_mem op ho))

lemma initSim_inv (n : ℕ) : SimInv n (initSim n) := by
  refine ⟨rfl, rfl, rfl, ?_⟩
  show normSq ⟨2 ^ n, fun i => if i = 0 then 1 else 0⟩ = 1
  exact normSq_one_hot (Nat.pos_pow_of_pos _ (by omega))

/-- Claim C4: for every register of n >= 1 qubits and every sequence of
apply_gate and measure operations (with valid uniform draws for the
full-register measurements) starting from the initial all-zero basis
state, the squared l2 norm of the state vector is exactly 1 -- hence the
l2 norm is 1 within every tolerance -- after construction (empty sequence)
and after each operation (every prefix is itself such a sequence). -/
theorem claim_C4 (n : ℕ) (hn : 1 ≤ n) (ops : List SimOp)
    (hops : ∀ op ∈ ops, ValidOp op) :
    normSq (run_ops (initSim n) ops).state = 1 :=
  (run_ops_inv ops (initSim n) (initSim_inv n) hops).2.2.2

/-- Witness for C4: one qubit, H then a single-qubit measurement. -/
theorem claim_C4_witness :
    normSq (run_ops (initSim 1)
      [SimOp.gate ("H") 0 none, SimOp.measure_one 0 0]).state = 1 :=
  claim_C4 1 (by decide)
    [SimOp.gate ("H") 0 none, SimOp.measure_one 0 0]
    (by
      intro op hop
      rcases List.mem_cons.mp hop with rfl | hop2
      · trivial
      · rcases List.mem_cons.mp hop2 with rfl | h
        · trivial
        · cases h)
